import Mathlib

/-!
Verification development for the `skillz` MCP server (`src/skillz.py`).

Python strings are modelled as lists of Unicode code points (`PyStr`),
byte strings as lists of naturals below 256, and filesystem paths as
lists of path segments.  All definitions are translated from the source
file `src/skillz.py`; the few places where repository code outside the
provided sources had to be modelled from the specification are marked
`Modelled from the spec:` in their doc comment.
-/

/-- A Python string, as the list of its Unicode code points. -/
abbrev PyStr := List Nat

/-- Bytes, as naturals below 256. -/
abbrev Bytes := List Nat

/-- An absolute filesystem path, as the list of its segments from the root. -/
abbrev AbsPath := List String

/-- Code-point test for the regex class `[a-zA-Z0-9]` used by `slugify`
(`src/skillz.py:126`). -/
def isAlnumCp (c : Nat) : Bool :=
  decide ((97 ≤ c ∧ c ≤ 122) ∨ (65 ≤ c ∧ c ≤ 90) ∨ (48 ≤ c ∧ c ≤ 57))

/-- Complement class `[^a-zA-Z0-9]` of the substitution regex. -/
def nonAl (c : Nat) : Bool := !isAlnumCp c

/-- The hyphen test used by `str.strip("-")`. -/
def isHyp (c : Nat) : Bool := decide (c = 45)

/-- Whitespace stripped by Python `str.strip()` (ASCII portion; every
character Python strips is non-alphanumeric, which is all the equivalence
proof below uses). -/
def isWsCp (c : Nat) : Bool :=
  decide (c = 32 ∨ (9 ≤ c ∧ c ≤ 13))

/-- Model of `str.lower()` on one code point (ASCII case folding, as relevant to
slug derivation). -/
def lowerCp (c : Nat) : Nat :=
  if 65 ≤ c ∧ c ≤ 90 then c + 32 else c

/-- Drop a trailing run of characters satisfying `p` (the right-hand half
of Python `str.strip`). -/
def rdrop (p : Nat → Bool) : List Nat → List Nat
  | [] => []
  | c :: rest =>
    match rdrop p rest with
    | [] => if p c then [] else [c]
    | r => c :: r

/-- Python `str.strip()` (both ends). -/
def pyStrip (s : PyStr) : PyStr :=
  rdrop isWsCp (s.dropWhile isWsCp)

/-- Worker for `collapseRuns`: the flag records whether the previous
character belonged to a non-alphanumeric run (whose hyphen was already
emitted). -/
def collapseGo : Bool → List Nat → List Nat
  | _, [] => []
  | prevNon, c :: rest =>
    if isAlnumCp c then c :: collapseGo false rest
    else if prevNon then collapseGo true rest
    else 45 :: collapseGo true rest

/-- Model of `re.sub(r"[^a-zA-Z0-9]+", "-", s)`: replace every maximal run of
non-alphanumeric characters by a single hyphen (code point 45). -/
def collapseRuns (l : List Nat) : List Nat := collapseGo false l

/-- Python `str.strip("-")` (both ends). -/
def stripHyphens (s : PyStr) : PyStr :=
  rdrop isHyp (s.dropWhile isHyp)

/-- The fallback slug token `"skill"` (`src/skillz.py:127`). -/
def fallbackSlug : PyStr := [115, 107, 105, 108, 108]

/-- Model of `slugify` (`src/skillz.py:123-127`):
`re.sub(r"[^a-zA-Z0-9]+", "-", value.strip().lower()).strip("-") or "skill"`. -/
def slugify (value : PyStr) : PyStr :=
  let cleaned := stripHyphens (collapseRuns ((pyStrip value).map lowerCp))
  if cleaned = [] then fallbackSlug else cleaned

/-- The slug derivation exactly as the claim words it: the input
lowercased, every maximal non-alphanumeric run collapsed to one hyphen,
hyphen edges trimmed, with the fixed fallback token when empty.  (No
whitespace pre-stripping; compared with the source's `slugify`.) -/
def claimSlug (value : PyStr) : PyStr :=
  let cleaned := stripHyphens (collapseRuns (value.map lowerCp))
  if cleaned = [] then fallbackSlug else cleaned

/-! ### Paths, path resolution and the error taxonomy -/

/-- One segment of a relative path string, as interpreted by `Path`:
`..` (parent), `.` (current), or a plain name. -/
inductive Seg where
  | up
  | cur
  | name (s : String)
deriving DecidableEq

/-- A `pathlib` path given to `resolve_within` as `relative`: possibly
absolute (in which case `base / relative` discards `base`). -/
structure RelPath where
  absolute : Bool
  segs : List Seg
deriving DecidableEq

/-- One step of lexical normalization performed by `Path.resolve()`:
`..` pops (staying at the root when already there), `.` is skipped. -/
def normStep (stack : AbsPath) : Seg → AbsPath
  | .up => stack.dropLast
  | .cur => stack
  | .name s => stack ++ [s]

/-- Model of `Path.resolve()` of `base / segs` for an already-resolved `base`. -/
def resolveFrom (base : AbsPath) (segs : List Seg) : AbsPath :=
  segs.foldl normStep base

/-- Model of `(base_resolved / relative).resolve()` — a relative `relative` is
appended, an absolute one replaces the base (`pathlib` semantics). -/
def joinResolve (base : AbsPath) (rel : RelPath) : AbsPath :=
  if rel.absolute then resolveFrom [] rel.segs else resolveFrom base rel.segs

/-- Model of `candidate.relative_to(base)` succeeds exactly when `base` is a
segment-prefix of `candidate` (descendant-or-self). -/
def descOf : AbsPath → AbsPath → Bool
  | [], _ => true
  | _ :: _, [] => false
  | a :: as, b :: bs => a == b && descOf as bs

/-- The failure conditions of `src/skillz.py`, with the data each message
interpolates.  All constructors except `binasciiPadding` model a
`SkillError` (or subclass); `binasciiPadding` models the `binascii.Error`
that `base64.b64decode` raises past `decode_payload_content` untouched. -/
inductive Err where
  | pathEscapes (relative : RelPath) (base : AbsPath)
  | unsupportedEncoding (encoding : String)
  | binasciiPadding
  | readRequiresTarget
  | summarizeRequiresContext
  | summarizeRequiresTarget
  | resourceNotFound (target : RelPath)
  | scriptNotFound (relative : RelPath)
  | fileEntryIncomplete
  | argsNotSequence
  | argsNotIterable
  | stdinWrongType
  | envNotMapping
  | commandUnresolved (target : AbsPath)
  | executionTimeout (timeout : Nat) (relative : RelPath)
deriving DecidableEq

/-- Whether the failure is raised as a `SkillError` (every modelled
condition except the propagated `binascii.Error`). -/
def Err.isSkillError : Err → Bool
  | .binasciiPadding => false
  | _ => true

/-- Model of `resolve_within` (`src/skillz.py:270-279`). -/
def resolve_within (base : AbsPath) (relative : RelPath) : Except Err AbsPath :=
  let candidate := joinResolve base relative
  if descOf base candidate then .ok candidate
  else .error (.pathEscapes relative base)

/-! ### Base64 and UTF-8 -/

/-- The standard base64 alphabet, by sextet value. -/
def b64chr (s : Nat) : Nat :=
  if s < 26 then 65 + s
  else if s < 52 then 97 + (s - 26)
  else if s < 62 then 48 + (s - 52)
  else if s = 62 then 43
  else 47

/-- Inverse alphabet lookup: `some` sextet for alphabet characters. -/
def b64val (c : Nat) : Option Nat :=
  if 65 ≤ c ∧ c ≤ 90 then some (c - 65)
  else if 97 ≤ c ∧ c ≤ 122 then some (26 + (c - 97))
  else if 48 ≤ c ∧ c ≤ 57 then some (52 + (c - 48))
  else if c = 43 then some 62
  else if c = 47 then some 63
  else none

/-- Model of `base64.b64encode(data).decode("ascii")`: canonical base64 with `=`
padding (code point 61). -/
def b64encode : Bytes → PyStr
  | [] => []
  | [a] => [b64chr (a / 4), b64chr (a % 4 * 16), 61, 61]
  | [a, b] => [b64chr (a / 4), b64chr (a % 4 * 16 + b / 16), b64chr (b % 16 * 4), 61]
  | a :: b :: c :: rest =>
    b64chr (a / 4) :: b64chr (a % 4 * 16 + b / 16) :: b64chr (b % 16 * 4 + c / 64) ::
      b64chr (c % 64) :: b64encode rest

/-- Sextet of an alphabet character (0 outside the alphabet). -/
def b64sext (c : Nat) : Nat := (b64val c).getD 0

/-- Characters `binascii.a2b_base64` feeds to the decoder. -/
def b64keep (c : Nat) : Bool := (b64val c).isSome || c == 61

/-- Alphabet membership. -/
def b64isAl (c : Nat) : Bool := (b64val c).isSome

/-- Decode complete 4-character groups with trailing padding. -/
def b64groups : PyStr → Option Bytes
  | [] => some []
  | c1 :: c2 :: c3 :: c4 :: rest =>
    if b64isAl c1 && b64isAl c2 then
      if c3 == 61 && c4 == 61 && rest.isEmpty then
        some [b64sext c1 * 4 + b64sext c2 / 16]
      else if b64isAl c3 && c4 == 61 && rest.isEmpty then
        some [b64sext c1 * 4 + b64sext c2 / 16,
          b64sext c2 % 16 * 16 + b64sext c3 / 4]
      else if b64isAl c3 && b64isAl c4 then
        (b64groups rest).map (fun bs =>
          (b64sext c1 * 4 + b64sext c2 / 16) ::
            (b64sext c2 % 16 * 16 + b64sext c3 / 4) ::
            (b64sext c3 % 4 * 64 + b64sext c4) :: bs)
      else none
    else none
  | _ => none

/-- Model of `base64.b64decode` on a Python string (as used by
`decode_payload_content`): characters outside the alphabet and the
padding character are discarded, then complete 4-character groups with
trailing padding are decoded; other shapes fail (Python raises
`binascii.Error` for them). -/
def b64decode (s : PyStr) : Option Bytes :=
  b64groups (s.filter b64keep)

/-- Continuation-byte test `0x80-0xBF`. -/
def isCont (b : Nat) : Bool := decide (128 ≤ b ∧ b ≤ 191)

/-- Second-byte constraint of a three-byte sequence (strict UTF-8:
`0xE0` needs `0xA0-0xBF`, `0xED` excludes surrogates). -/
def utf8Cont2Ok (b b2 : Nat) : Bool :=
  if b = 224 then decide (160 ≤ b2 ∧ b2 ≤ 191)
  else if b = 237 then decide (128 ≤ b2 ∧ b2 ≤ 159)
  else isCont b2

/-- Second-byte constraint of a four-byte sequence (strict UTF-8:
`0xF0` needs `0x90-0xBF`, `0xF4` needs `0x80-0x8F`). -/
def utf8Cont3Ok (b b2 : Nat) : Bool :=
  if b = 240 then decide (144 ≤ b2 ∧ b2 ≤ 191)
  else if b = 244 then decide (128 ≤ b2 ∧ b2 ≤ 143)
  else isCont b2

/-- Model of `bytes.decode("utf-8")` in strict mode: `some` code points on valid
UTF-8, `none` where Python raises `UnicodeDecodeError`. -/
def utf8Decode : List Nat → Option (List Nat)
  | [] => some []
  | b :: rest =>
    if b < 128 then (utf8Decode rest).map (fun cs => b :: cs)
    else if 194 ≤ b ∧ b ≤ 223 then
      match rest with
      | b2 :: rest2 =>
        if isCont b2 then
          (utf8Decode rest2).map (fun cs => ((b - 192) * 64 + (b2 - 128)) :: cs)
        else none
      | [] => none
    else if 224 ≤ b ∧ b ≤ 239 then
      match rest with
      | b2 :: b3 :: rest3 =>
        if utf8Cont2Ok b b2 && isCont b3 then
          (utf8Decode rest3).map
            (fun cs => ((b - 224) * 4096 + (b2 - 128) * 64 + (b3 - 128)) :: cs)
        else none
      | _ => none
    else if 240 ≤ b ∧ b ≤ 244 then
      match rest with
      | b2 :: b3 :: b4 :: rest4 =>
        if utf8Cont3Ok b b2 && isCont b3 && isCont b4 then
          (utf8Decode rest4).map
            (fun cs => ((b - 240) * 262144 + (b2 - 128) * 4096 +
              (b3 - 128) * 64 + (b4 - 128)) :: cs)
        else none
      | _ => none
    else none

/-- Model of `str.encode("utf-8")` of one code point. -/
def utf8EncodeCp (c : Nat) : Bytes :=
  if c < 128 then [c]
  else if c < 2048 then [192 + c / 64, 128 + c % 64]
  else if c < 65536 then [224 + c / 4096, 128 + c / 64 % 64, 128 + c % 64]
  else [240 + c / 262144, 128 + c / 4096 % 64, 128 + c / 64 % 64, 128 + c % 64]

/-- Model of `str.encode("utf-8")` of a string. -/
def utf8Encode (s : PyStr) : Bytes := (s.map utf8EncodeCp).flatten

/-- The tagged payload returned for one output stream: either a decoded
text or a base64 rendering of the raw bytes. -/
inductive OutputEnc where
  | textOut (content : PyStr)
  | base64Out (content : PyStr)
deriving DecidableEq

/-- Model of `encode_output` (`src/skillz.py:290-295`): strict UTF-8 decode, with
base64 fallback on `UnicodeDecodeError`. -/
def encode_output (data : Bytes) : OutputEnc :=
  match utf8Decode data with
  | some text => .textOut text
  | none => .base64Out (b64encode data)

/-- Model of `decode_payload_content` (`src/skillz.py:282-287`).  A `base64` tag
with undecodable content raises `binascii.Error` in Python (not a
`SkillError`); that path is the `binasciiPadding` error. -/
def decode_payload_content (content : PyStr) (encoding : String) : Except Err Bytes :=
  if encoding = "text" then .ok (utf8Encode content)
  else if encoding = "base64" then
    match b64decode content with
    | some bs => .ok bs
    | none => .error .binasciiPadding
  else .error (.unsupportedEncoding encoding)

deriving instance DecidableEq for Except

/-! ### Manifest parsing -/

/-- A YAML scalar or shallow list value, as relevant to front-matter
handling. -/
inductive YVal where
  | strv (v : PyStr)
  | intv (n : Int)
  | boolv (b : Bool)
  | nullv
  | listv (vs : List PyStr)
deriving DecidableEq

/-- Decimal rendering of a natural, as code points. -/
def natToStr (n : Nat) : PyStr := (Nat.toDigits 10 n).map Char.toNat

/-- Model of `str(int)`. -/
def intToStr (n : Int) : PyStr :=
  if n < 0 then 45 :: natToStr n.natAbs else natToStr n.toNat

/-- Model of `", ".join`-style separator used in list rendering. -/
def joinCommaSep (xs : List PyStr) : PyStr := List.intercalate [44, 32] xs

/-- Model of `str(value)` for the modelled value shapes: `str(None) = "None"`,
`str(True) = "True"`, `str(False) = "False"`, lists are rendered with
brackets and quoted items. -/
def pyToStr : YVal → PyStr
  | .strv v => v
  | .intv n => intToStr n
  | .boolv true => [84, 114, 117, 101]
  | .boolv false => [70, 97, 108, 115, 101]
  | .nullv => [78, 111, 110, 101]
  | .listv vs => [91] ++ joinCommaSep (vs.map (fun v => [39] ++ v ++ [39])) ++ [93]

/-- Python truthiness of the modelled value shapes. -/
def pyTruthy : YVal → Bool
  | .strv v => !v.isEmpty
  | .intv n => decide (n ≠ 0)
  | .boolv b => b
  | .nullv => false
  | .listv vs => !vs.isEmpty

/-- Model of `x or y` for modelled values (the `data.get(...) or ...` chains). -/
def pyOr (a b : YVal) : YVal := if pyTruthy a then a else b

/-- The result of `yaml.safe_load` on the front-matter block. -/
inductive YDoc where
  | mapping (entries : List (String × YVal))
  | scalar (v : YVal)
deriving DecidableEq

/-- Abstraction of a `SKILL.md` text as seen by `parse_skill_md`: either
the front-matter regex fails to match, or it yields a header (`none` =
`yaml.YAMLError`) and a body. -/
inductive FMBlock where
  | absent
  | present (header : Option YDoc) (body : PyStr)
deriving DecidableEq

/-- The `SkillValidationError` conditions of `parse_skill_md`. -/
inductive ValidationErr where
  | missingMarker
  | yamlUnparseable
  | notMapping
  | missingName
  | missingDescription
deriving DecidableEq

/-- Model of `data.get(k)` on the decoded mapping. -/
def ymGet (entries : List (String × YVal)) (k : String) : Option YVal :=
  (entries.find? (fun kv => kv.1 == k)).map (fun kv => kv.2)

/-- Model of `yaml.safe_load(...) or {}` followed by the `Mapping` check: a falsy
document collapses to the empty mapping; a truthy non-mapping fails. -/
def yamlOrEmpty : YDoc → Except ValidationErr (List (String × YVal))
  | .mapping es => .ok es
  | .scalar v => if pyTruthy v then .error .notMapping else .ok []

/-- Model of `s.split(",")`. -/
def splitComma : PyStr → List PyStr
  | [] => [[]]
  | c :: rest =>
    if c = 44 then [] :: splitComma rest
    else
      match splitComma rest with
      | h :: t => (c :: h) :: t
      | [] => [[c]]

/-- The `allowed-tools` normalization (`src/skillz.py:158-166`): a string
is split on commas and trimmed, a sequence is stringified and trimmed
(empties dropped), anything else yields the empty sequence. -/
def allowedFromVal : YVal → List PyStr
  | .strv v => ((splitComma v).map pyStrip).filter (fun s => !s.isEmpty)
  | .listv vs => (vs.map pyStrip).filter (fun s => !s.isEmpty)
  | _ => []

/-- Structured metadata extracted from a skill front matter block
(`SkillMetadata`, `src/skillz.py:89-97`). -/
structure SkillMetadata where
  name : PyStr
  description : PyStr
  license : Option PyStr
  allowed_tools : List PyStr
  extra : List (String × YVal)
deriving DecidableEq

/-- The recognized front-matter keys (`src/skillz.py:172`). -/
def recognizedKeys : List String :=
  ["name", "description", "license", "allowed-tools", "allowed_tools"]

/-- Model of `parse_skill_md` (`src/skillz.py:130-182`) over the front-matter
abstraction. -/
def parse_skill_md (fm : FMBlock) : Except ValidationErr (SkillMetadata × PyStr) :=
  match fm with
  | .absent => .error .missingMarker
  | .present header body =>
    match header with
    | none => .error .yamlUnparseable
    | some doc =>
      match yamlOrEmpty doc with
      | .error e => .error e
      | .ok data =>
        let name := pyStrip (pyToStr ((ymGet data "name").getD (.strv [])))
        let description :=
          pyStrip (pyToStr ((ymGet data "description").getD (.strv [])))
        if name.isEmpty then .error .missingName
        else if description.isEmpty then .error .missingDescription
        else
          let allowedVal := pyOr (pyOr ((ymGet data "allowed-tools").getD .nullv)
            ((ymGet data "allowed_tools").getD .nullv)) (.listv [])
          let license := match ymGet data "license" with
            | some v => if pyTruthy v then some (pyStrip (pyToStr v)) else none
            | none => none
          .ok ({ name := name, description := description, license := license,
                 allowed_tools := allowedFromVal allowedVal,
                 extra := data.filter (fun kv => !(recognizedKeys.contains kv.1)) },
              body.dropWhile isWsCp)

/-- The header entries of a manifest abstraction (empty unless a mapping
was decoded); used to phrase the `extra` law. -/
def headerEntries : FMBlock → List (String × YVal)
  | .present (some (.mapping es)) _ => es
  | _ => []

/-- The claim's failure condition for `parse_skill_md`, decidably: the
marker block is absent, the header fails to parse, the header does not
decode to a mapping, or a required field is empty after trimming. -/
def claimParseFails (fm : FMBlock) : Bool :=
  match fm with
  | .absent => true
  | .present none _ => true
  | .present (some (.scalar _)) _ => true
  | .present (some (.mapping es)) _ =>
    (pyStrip (pyToStr ((ymGet es "name").getD (.strv [])))).isEmpty ||
      (pyStrip (pyToStr ((ymGet es "description").getD (.strv [])))).isEmpty

/-! ### The skill registry -/

/-- The manifest filename constant `SKILL_MARKDOWN` as a top-level
relative path. -/
def skillMdPath : List String := ["SKILL.md"]

/-- Model of `Path.name`: the final segment (empty for the empty path). -/
def relName (p : List String) : String := p.getLastD ""

/-- Runtime representation of a skill (`Skill`, `src/skillz.py:100-108`). -/
structure Skill where
  slug : PyStr
  directory : AbsPath
  instructions_path : AbsPath
  metadata : SkillMetadata
  resources : List (List String)
deriving DecidableEq

/-- Model of `SkillRegistry._collect_resources` (`src/skillz.py:252-261`): the list
is seeded with the manifest path, then every file of the sorted recursive
listing is appended, skipping only the top-level manifest itself.
`entries` is the sorted `rglob("*")` listing as pairs of a
directory-relative path and an `is_file` flag. -/
def collect_resources (entries : List (List String × Bool)) : List (List String) :=
  [skillMdPath] ++
    ((entries.filter (fun e => e.2 &&
        !(relName e.1 == "SKILL.md" && e.1 == skillMdPath))).map
      (fun e => e.1))

/-- One child of the skills root as observed by `SkillRegistry.load`
(`src/skillz.py:204-209`): non-directories and directories without a
top-level `SKILL.md` are skipped; a directory with one carries the
manifest abstraction and its sorted recursive listing. -/
inductive Child where
  | nonDir (name : String)
  | dirNoManifest (name : String)
  | dirManifest (name : String) (fm : FMBlock) (entries : List (List String × Bool))
deriving DecidableEq

/-- The filesystem name of the child. -/
def Child.childName : Child → String
  | .nonDir n => n
  | .dirNoManifest n => n
  | .dirManifest n _ _ => n

/-- Registry state: insertion-ordered association lists mirroring
`_skills_by_slug` and `_skills_by_name`. -/
structure RegState where
  bySlug : List (PyStr × Skill)
  byName : List (PyStr × Skill)
deriving DecidableEq

/-- The state of a freshly constructed registry. -/
def emptyReg : RegState := ⟨[], []⟩

/-- Model of `self._skills_by_slug.get(slug)`. -/
def lookupSlug (st : RegState) (s : PyStr) : Option Skill :=
  (st.bySlug.find? (fun kv => kv.1 == s)).map (fun kv => kv.2)

/-- Model of `self._skills_by_name.get(name)`. -/
def lookupName (st : RegState) (n : PyStr) : Option Skill :=
  (st.byName.find? (fun kv => kv.1 == n)).map (fun kv => kv.2)

/-- The `Skill` record built at registration time
(`src/skillz.py:232-238`). -/
def mkSkill (root : AbsPath) (name : String) (meta : SkillMetadata)
    (entries : List (List String × Bool)) : Skill :=
  { slug := slugify meta.name
    directory := root ++ [name]
    instructions_path := root ++ [name, "SKILL.md"]
    metadata := meta
    resources := collect_resources entries }

/-- One iteration of the `load` loop (`src/skillz.py:204-248`): skip
non-directories, directories without a manifest and invalid manifests;
then skip on slug or display-name collision; otherwise register. -/
def loadStep (root : AbsPath) (st : RegState) (ch : Child) : RegState :=
  match ch with
  | .nonDir _ => st
  | .dirNoManifest _ => st
  | .dirManifest name fm entries =>
    match parse_skill_md fm with
    | .error _ => st
    | .ok (meta, _) =>
      if (lookupSlug st (slugify meta.name)).isSome then st
      else if (lookupName st meta.name).isSome then st
      else
        { bySlug := st.bySlug ++ [(slugify meta.name, mkSkill root name meta entries)]
          byName := st.byName ++ [(meta.name, mkSkill root name meta entries)] }

/-- Lexicographic order on code-point lists. -/
def cpLe : List Nat → List Nat → Bool
  | [], _ => true
  | _ :: _, [] => false
  | a :: as, b :: bs =>
    if a < b then true else if b < a then false else cpLe as bs

/-- Lexicographic filename order (the order `sorted` uses on paths). -/
def strLe (a b : String) : Bool :=
  cpLe (a.data.map Char.toNat) (b.data.map Char.toNat)

/-- Stable insertion of a child into a name-sorted list. -/
def insertSorted (x : Child) : List Child → List Child
  | [] => [x]
  | y :: ys =>
    if strLe x.childName y.childName then x :: y :: ys else y :: insertSorted x ys

/-- Children in the order `sorted(self.root.iterdir())` visits them
(stable insertion sort by name). -/
def sortChildren (children : List Child) : List Child :=
  children.foldr insertSorted []

/-- Model of `SkillRegistry.load` (`src/skillz.py:197-250`) over the abstract
children of the root. -/
def registryLoad (root : AbsPath) (children : List Child) : RegState :=
  (sortChildren children).foldl (loadStep root) emptyReg

/-! ### Filesystem, resource actions and the execution sandbox -/

/-- A filesystem: file contents by absolute path (`none` where no file
exists; directories are implicit). -/
def Fs : Type := AbsPath → Option Bytes

/-- Model of `dest.write_bytes(data)`. -/
def fsWrite (fs : Fs) (p : AbsPath) (data : Bytes) : Fs :=
  fun q => if q = p then some data else fs q

/-- Model of `shutil.copytree(src, dst)` (`TemporaryWorkspace.copy_skill_contents`,
`src/skillz.py:452-458`): below `dst` contents mirror the source subtree;
elsewhere the filesystem is unchanged. -/
def copyTree (fs : Fs) (src dst : AbsPath) : Fs :=
  fun q => if descOf dst q then fs (src ++ q.drop dst.length) else fs q

/-- Recursive removal of `root` (`TemporaryWorkspace.__exit__` cleanup,
`src/skillz.py:447-450`). -/
def removeTree (fs : Fs) (root : AbsPath) : Fs :=
  fun q => if descOf root q then none else fs q

/-- The response of the `read` action. -/
structure ReadResponse where
  enc : OutputEnc
  path : RelPath
  mime_type : String
deriving DecidableEq

/-- The `read` action of the generated skill tool
(`src/skillz.py:503-519`): resolve the target inside the skill directory,
require an existing file, and encode its bytes.  `guessMime` abstracts
the `mimetypes` table consulted by `guess_mime`. -/
def readAction (fs : Fs) (directory : AbsPath) (target : Option RelPath)
    (guessMime : String → String) : Except Err ReadResponse :=
  match target with
  | none => .error .readRequiresTarget
  | some t =>
    match resolve_within directory t with
    | .error e => .error e
    | .ok p =>
      match fs p with
      | none => .error (.resourceNotFound t)
      | some data =>
        .ok { enc := encode_output data, path := t, mime_type := guessMime (relName p) }

/-- The `summarize` action (`src/skillz.py:521-548`): requires sampling
context and a target, resolves it, requires a file, and returns the
sampling outcome on the content (`sample` abstracts prompt construction
plus the external `ctx.sample` call). -/
def summarizeAction (fs : Fs) (directory : AbsPath) (hasContext : Bool)
    (target : Option RelPath) (sample : Bytes → PyStr) :
    Except Err (PyStr × RelPath) :=
  if !hasContext then .error .summarizeRequiresContext
  else
    match target with
    | none => .error .summarizeRequiresTarget
    | some t =>
      match resolve_within directory t with
      | .error e => .error e
      | .ok p =>
        match fs p with
        | none => .error (.resourceNotFound t)
        | some data => .ok (sample data, t)

/-- One `files` entry of a `run_script` payload (`entry.get("path")`,
`entry.get("content")`, `entry.get("encoding", "text")`; a missing or
falsy path is `none`). -/
structure FileEntry where
  path : Option RelPath
  content : Option PyStr
  encoding : String
deriving DecidableEq

/-- The `stdin` payload: absent, a plain string, a content/encoding
mapping, or a value of any other type. -/
inductive StdinSpec where
  | absent
  | text (s : PyStr)
  | mapping (content : PyStr) (encoding : String)
  | invalid
deriving DecidableEq

/-- The `args` payload: a string/bytes value, a sequence of stringified
arguments, or a non-iterable value. -/
inductive ArgsSpec where
  | strVal
  | items (xs : List String)
  | notIterable
deriving DecidableEq

/-- The `env` payload: a mapping of overrides or a value of another type. -/
inductive EnvSpec where
  | mapping (overrides : List (PyStr × PyStr))
  | invalid
deriving DecidableEq

/-- A `run_script` request payload (`src/skillz.py:339-391`). -/
structure Payload where
  files : List FileEntry
  args : ArgsSpec
  stdin : StdinSpec
  env : EnvSpec
  workdir : Option RelPath
deriving DecidableEq

/-- The awaited child-process outcome: completion with captured streams,
or `asyncio.TimeoutError`. -/
inductive ExecOutcome where
  | completed (stdout stderr : Bytes) (returncode : Int) (duration : Nat)
  | timedOut
deriving DecidableEq

/-- The success payload of `run_script` (`src/skillz.py:426-433`). -/
structure RunResult where
  command : List String
  cwd : AbsPath
  returncode : Int
  stdout : OutputEnc
  stderr : OutputEnc
  duration_seconds : Nat
deriving DecidableEq

/-- The observable effect of one `run_script` call: the final filesystem,
whether a child process was spawned, whether it was killed after a
timeout, and the returned value or error. -/
structure RunOutcome where
  fs : Fs
  spawned : Bool
  killed : Bool
  result : Except Err RunResult

/-- The `files` materialization loop (`src/skillz.py:339-350`): each
entry must carry a path and content, is resolved inside the copied
bundle, and its decoded bytes are written (parent-directory creation is
implicit in the filesystem model).  Returns the filesystem as mutated so
far together with the first error, if any. -/
def writeFiles (dest : AbsPath) : Fs → List FileEntry → Fs × Option Err
  | fs, [] => (fs, none)
  | fs, entry :: rest =>
    match entry.path, entry.content with
    | some rel, some content =>
      match resolve_within dest rel with
      | .error e => (fs, some e)
      | .ok p =>
        match decode_payload_content content entry.encoding with
        | .error e => (fs, some e)
        | .ok bytes => writeFiles dest (fsWrite fs p bytes) rest
    | _, _ => (fs, some .fileEntryIncomplete)

/-- The `args` validation (`src/skillz.py:352-357`). -/
def argsCheck : ArgsSpec → Except Err (List String)
  | .strVal => .error .argsNotSequence
  | .items xs => .ok xs
  | .notIterable => .error .argsNotIterable

/-- The `stdin` normalization (`src/skillz.py:359-372`). -/
def stdinBytes : StdinSpec → Except Err (Option Bytes)
  | .absent => .ok none
  | .text s => .ok (some (utf8Encode s))
  | .mapping content encoding =>
    match decode_payload_content content encoding with
    | .error e => .error e
    | .ok bs => .ok (some bs)
  | .invalid => .error .stdinWrongType

/-- The `env` validation (`src/skillz.py:374-378`; the environment built
afterwards forwards `PATH`, an allowlist and the overrides, which no
claim observes). -/
def envCheck : EnvSpec → Except Err (List (PyStr × PyStr))
  | .mapping o => .ok o
  | .invalid => .error .envNotMapping

/-- Model of `str(path)` for the command vector. -/
def pathStr (p : AbsPath) : String := "/" ++ String.intercalate "/" p

/-- The workspace filesystem after the bundle copy and the request-file
writes (the state cleaned up by `TemporaryWorkspace.__exit__`). -/
def workFs (fs : Fs) (skillDir tmpRoot : AbsPath) (files : List FileEntry) : Fs :=
  (writeFiles (tmpRoot ++ [relName skillDir])
    (copyTree fs skillDir (tmpRoot ++ [relName skillDir])) files).1

/-- The command-vector assembly (`src/skillz.py:396-400`). -/
def buildExecCommand (cmd : List String) (target : AbsPath)
    (args_list : List String) : List String :=
  if ¬cmd.isEmpty ∧ cmd.head? ≠ some (pathStr target) then
    cmd ++ [pathStr target] ++ args_list
  else (if cmd.isEmpty then [pathStr target] else cmd) ++ args_list

/-- Model of `run_script` (`src/skillz.py:321-433`).  External ingredients are
parameters: `tmpRoot` is the fresh directory made by
`TemporaryWorkspace.__enter__`; `command` is the `resolve_command`
outcome on the copied target (`none` models the unresolvable-interpreter
`SkillExecutionError`); `exec` is the awaited child-process outcome; and
`childEffect` is the filesystem effect of the spawned process, applied at
spawn time.  The temporary workspace is removed on every path that
created it. -/
def run_script (fs : Fs) (skillDir tmpRoot : AbsPath) (relPath : RelPath)
    (payload : Payload) (timeout : Nat) (command : Option (List String))
    (exec : ExecOutcome) (childEffect : Fs → Fs) : RunOutcome :=
  match resolve_within skillDir relPath with
  | .error e => ⟨fs, false, false, .error e⟩
  | .ok source_path =>
    if (fs source_path).isNone then
      ⟨fs, false, false, .error (.scriptNotFound relPath)⟩
    else
      match resolve_within (tmpRoot ++ [relName skillDir]) relPath with
      | .error e =>
        ⟨removeTree (copyTree fs skillDir (tmpRoot ++ [relName skillDir])) tmpRoot,
          false, false, .error e⟩
      | .ok rel_target =>
        match (writeFiles (tmpRoot ++ [relName skillDir])
            (copyTree fs skillDir (tmpRoot ++ [relName skillDir])) payload.files).2 with
        | some e =>
          ⟨removeTree (workFs fs skillDir tmpRoot payload.files) tmpRoot,
            false, false, .error e⟩
        | none =>
          match argsCheck payload.args with
          | .error e =>
            ⟨removeTree (workFs fs skillDir tmpRoot payload.files) tmpRoot,
              false, false, .error e⟩
          | .ok args_list =>
            match stdinBytes payload.stdin with
            | .error e =>
              ⟨removeTree (workFs fs skillDir tmpRoot payload.files) tmpRoot,
                false, false, .error e⟩
            | .ok _stdin_data =>
              match envCheck payload.env with
              | .error e =>
                ⟨removeTree (workFs fs skillDir tmpRoot payload.files) tmpRoot,
                  false, false, .error e⟩
              | .ok _env =>
                match (match payload.workdir with
                  | some w => resolve_within (tmpRoot ++ [relName skillDir]) w
                  | none => .ok rel_target.dropLast) with
                | .error e =>
                  ⟨removeTree (workFs fs skillDir tmpRoot payload.files) tmpRoot,
                    false, false, .error e⟩
                | .ok workdir =>
                  match command with
                  | none =>
                    ⟨removeTree (workFs fs skillDir tmpRoot payload.files) tmpRoot,
                      false, false, .error (.commandUnresolved rel_target)⟩
                  | some cmd =>
                    match exec with
                    | .completed out err rc dur =>
                      ⟨removeTree
                          (childEffect (workFs fs skillDir tmpRoot payload.files))
                          tmpRoot, true, false,
                        .ok { command := buildExecCommand cmd rel_target args_list,
                              cwd := workdir, returncode := rc,
                              stdout := encode_output out,
                              stderr := encode_output err,
                              duration_seconds := dur }⟩
                    | .timedOut =>
                      ⟨removeTree
                          (childEffect (workFs fs skillDir tmpRoot payload.files))
                          tmpRoot, true, true,
                        .error (.executionTimeout timeout relPath)⟩

/-! ### Archive-aware discovery (modelled from the spec)

The package module implementing archive-backed skills is not among the
provided sources (only its tests and package declarations are), so the
definitions in this section are modelled from the specification text
(spec sections 4.1 and 4.3), not from source code. -/

/-- Modelled from the spec: system-metadata junk entries excluded from
archive enumeration (spec 4.1; the archive-aware server module is
missing from the sources). -/
def junkEntry (p : List String) : Bool :=
  p.head? == some "__MACOSX" || relName p == ".DS_Store"

/-- Modelled from the spec: the single common top-level directory of the
archive's entries, when every entry lies strictly below one (spec 4.1,
nested top-level directory stripping). -/
def commonTop (es : List (List String)) : Option String :=
  match es with
  | [] => none
  | p :: _ =>
    match p.head? with
    | none => none
    | some d =>
      if es.all (fun q => q.head? == some d && decide (2 ≤ q.length)) then some d
      else none

/-- Modelled from the spec: the relative paths an archive-backed bundle
exposes — junk entries dropped, then the shared top-level directory
stripped when present. -/
def effectiveEntries (es : List (List String)) : List (List String) :=
  let clean := es.filter (fun p => !junkEntry p)
  match commonTop clean with
  | some _ => clean.map (fun p => p.drop 1)
  | none => clean

/-- Modelled from the spec: the two recognized archive filename
extensions. -/
def archiveExts : List String := [".zip", ".skill"]

/-- Modelled from the spec: one immediate child of the skills root as the
archive-aware registry sees it — a directory (with or without a
top-level manifest), or a file carrying its name extension, its entry
list when it is a readable archive (`none` = corrupt), and the
front-matter abstraction of the manifest it holds. -/
inductive ChildA where
  | dir (name : String) (hasManifest : Bool) (fm : FMBlock)
  | file (name : String) (ext : String) (archive : Option (List (List String)))
      (fm : FMBlock)
deriving DecidableEq

/-- The filesystem name of the child. -/
def ChildA.nameA : ChildA → String
  | .dir n _ _ => n
  | .file n _ _ _ => n

/-- Whether the child is an archive file rather than a directory. -/
def ChildA.isArchiveFile : ChildA → Bool
  | .dir _ _ _ => false
  | .file _ _ _ _ => true

/-- The front-matter abstraction of the child's manifest. -/
def ChildA.fmA : ChildA → FMBlock
  | .dir _ _ fm => fm
  | .file _ _ _ fm => fm

/-- Modelled from the spec (spec 4.3): a child is a candidate bundle iff
it is a directory with a top-level manifest, or a file with a recognized
archive extension whose effective root contains a manifest. -/
def candidateBundle : ChildA → Bool
  | .dir _ hasManifest _ => hasManifest
  | .file _ ext archive _ =>
    archiveExts.contains ext &&
      (match archive with
       | some es => (effectiveEntries es).contains skillMdPath
       | none => false)

/-- A registered skill of the archive-aware registry, with its
`is_archive` flag. -/
structure SkillA where
  slug : PyStr
  metadata : SkillMetadata
  is_archive : Bool
deriving DecidableEq

/-- Archive-aware registry state. -/
structure RegStateA where
  bySlug : List (PyStr × SkillA)
  byName : List (PyStr × SkillA)
deriving DecidableEq

/-- Slug lookup in the archive-aware registry. -/
def lookupSlugA (st : RegStateA) (s : PyStr) : Option SkillA :=
  (st.bySlug.find? (fun kv => kv.1 == s)).map (fun kv => kv.2)

/-- Display-name lookup in the archive-aware registry. -/
def lookupNameA (st : RegStateA) (n : PyStr) : Option SkillA :=
  (st.byName.find? (fun kv => kv.1 == n)).map (fun kv => kv.2)

/-- Modelled from the spec (spec 4.3): one discovery step of the
archive-aware load — non-candidates are skipped, invalid manifests are
skipped with a warning, and slug/display-name collisions follow the same
first-registrant-wins rule as the directory registry. -/
def loadStepA (st : RegStateA) (ch : ChildA) : RegStateA :=
  if !candidateBundle ch then st
  else
    match parse_skill_md ch.fmA with
    | .error _ => st
    | .ok (meta, _) =>
      if (lookupSlugA st (slugify meta.name)).isSome then st
      else if (lookupNameA st meta.name).isSome then st
      else
        ⟨st.bySlug ++
            [(slugify meta.name, ⟨slugify meta.name, meta, ch.isArchiveFile⟩)],
          st.byName ++ [(meta.name, ⟨slugify meta.name, meta, ch.isArchiveFile⟩)]⟩

/-- Stable insertion into a name-sorted list of archive-aware children. -/
def insertSortedA (x : ChildA) : List ChildA → List ChildA
  | [] => [x]
  | y :: ys =>
    if strLe x.nameA y.nameA then x :: y :: ys else y :: insertSortedA x ys

/-- Archive-aware children in sorted order. -/
def sortChildrenA (children : List ChildA) : List ChildA :=
  children.foldr insertSortedA []

/-- Modelled from the spec: the archive-aware `load`, processing the
immediate children of the root in sorted order. -/
def registryLoadA (children : List ChildA) : RegStateA :=
  (sortChildrenA children).foldl loadStepA ⟨[], []⟩

/-- Concrete front matter of a skill named `Echo` with description
`Test`. -/
def cexEchoFm : FMBlock :=
  .present (some (.mapping [("name", .strv [69, 99, 104, 111]),
    ("description", .strv [84, 101, 115, 116])])) [66, 111, 100, 121]

/-- A one-child skills root: directory `echo` with one resource file. -/
def cexChildren : List Child :=
  [.dirManifest "echo" cexEchoFm [(["notes.txt"], true)]]

/-- The slug `echo`. -/
def slugEcho : PyStr := [101, 99, 104, 111]

/-- The metadata parsed from `cexEchoFm`. -/
def cexMeta : SkillMetadata :=
  { name := [69, 99, 104, 111], description := [84, 101, 115, 116],
    license := none, allowed_tools := [], extra := [] }

/-- The skill registered from `cexChildren`. -/
def cexSkill : Skill := mkSkill ["root"] "echo" cexMeta [(["notes.txt"], true)]

/-- Front matter whose display name `Echo!` also slugifies to `echo`. -/
def cexEchoBangFm : FMBlock :=
  .present (some (.mapping [("name", .strv [69, 99, 104, 111, 33]),
    ("description", .strv [84, 101, 115, 116])])) [66]

/-- The filesystem of the concrete witness root: one skill directory
with one script file. -/
def witnessFs : Fs :=
  fun p => if p = ["skills", "echo", "run.py"] then some [35] else none

/-- The witness relative path `run.py`. -/
def wRel : RelPath := ⟨false, [.name "run.py"]⟩

/-- An empty, well-formed request payload. -/
def wPayload : Payload := ⟨[], .items [], .absent, .mapping [], none⟩

/-- A request whose stdin mapping carries the unsupported tag `"hex"`. -/
def wPayloadBadStdin : Payload :=
  ⟨[], .items [], .mapping [104] "hex", .mapping [], none⟩

/-- A files entry carrying the unsupported tag `"hex"`. -/
def wBadEntry : FileEntry := ⟨some ⟨false, [.name "data.bin"]⟩, some [104], "hex"⟩

/-- A request whose single files entry carries the unsupported tag. -/
def wPayloadBadFile : Payload := ⟨[wBadEntry], .items [], .absent, .mapping [], none⟩

theorem length_dropWhile_le {α : Type} (p : α → Bool) (l : List α) :
    (l.dropWhile p).length ≤ l.length := by
  induction l with
  | nil => exact Nat.le_refl _
  | cons a as ih =>
    by_cases h : p a = true
    · rw [List.dropWhile_cons_of_pos h]
      exact Nat.le_trans ih (Nat.le_succ _)
    · rw [List.dropWhile_cons_of_neg h]

/-! ### Equivalence of `slugify` with the claim's description -/

theorem rdrop_cons_of_nil (p : Nat → Bool) (c : Nat) (rest : List Nat)
    (h : rdrop p rest = []) :
    rdrop p (c :: rest) = if p c then [] else [c] := by
  simp only [rdrop, h]

theorem rdrop_cons_of_ne (p : Nat → Bool) (c a : Nat) (rest as : List Nat)
    (h : rdrop p rest = a :: as) :
    rdrop p (c :: rest) = c :: a :: as := by
  simp only [rdrop, h]

theorem collapseRuns_nil : collapseRuns [] = [] := rfl

theorem collapseGo_unfold (prevNon : Bool) (c : Nat) (rest : List Nat) :
    collapseGo prevNon (c :: rest) =
      if isAlnumCp c then c :: collapseGo false rest
      else if prevNon then collapseGo true rest
      else 45 :: collapseGo true rest := rfl

theorem collapseGo_true_dropWhile (rest : List Nat) :
    collapseGo true rest = collapseGo false (rest.dropWhile nonAl) := by
  induction rest with
  | nil => rfl
  | cons c r ih =>
    by_cases hc : isAlnumCp c = true
    · rw [List.dropWhile_cons_of_neg (by simp [nonAl, hc]), collapseGo_unfold,
        collapseGo_unfold, if_pos hc, if_pos hc]
    · have hc' : isAlnumCp c = false := by simpa using hc
      rw [List.dropWhile_cons_of_pos (by simp [nonAl, hc']), collapseGo_unfold,
        if_neg (by simp [hc']), if_pos rfl]
      exact ih

theorem collapseRuns_cons_pos (c : Nat) (rest : List Nat) (h : isAlnumCp c = true) :
    collapseRuns (c :: rest) = c :: collapseRuns rest := by
  show collapseGo false (c :: rest) = c :: collapseGo false rest
  rw [collapseGo_unfold, if_pos h]

theorem collapseRuns_cons_neg (c : Nat) (rest : List Nat) (h : isAlnumCp c = false) :
    collapseRuns (c :: rest) = 45 :: collapseRuns (rest.dropWhile nonAl) := by
  show collapseGo false (c :: rest) = 45 :: collapseGo false (rest.dropWhile nonAl)
  rw [collapseGo_unfold, if_neg (by simp [h]), if_neg (by simp),
    collapseGo_true_dropWhile]

theorem rdrop_eq_nil_iff (p : Nat → Bool) (l : List Nat) :
    rdrop p l = [] ↔ ∀ x ∈ l, p x = true := by
  induction l with
  | nil => simp [rdrop]
  | cons c rest ih =>
    cases hr : rdrop p rest with
    | nil =>
      rw [rdrop_cons_of_nil p c rest hr]
      by_cases hc : p c = true
      · rw [if_pos hc]
        constructor
        · intro _ x hx
          rcases List.mem_cons.mp hx with h | h
          · rw [h]; exact hc
          · exact (ih.mp hr) x h
        · intro _; rfl
      · rw [if_neg hc]
        constructor
        · intro h; cases h
        · intro h; exact absurd (h c (by simp)) hc
    | cons a as =>
      rw [rdrop_cons_of_ne p c a rest as hr]
      constructor
      · intro h; cases h
      · intro h
        have h2 : rdrop p rest = [] :=
          (ih).mpr (fun x hx => h x (List.mem_cons_of_mem c hx))
        rw [hr] at h2; cases h2

theorem dropWhile_eq_nil_of_all (p : Nat → Bool) (l : List Nat)
    (h : ∀ x ∈ l, p x = true) : l.dropWhile p = [] := by
  induction l with
  | nil => rfl
  | cons c rest ih =>
    rw [List.dropWhile_cons_of_pos (h c (by simp))]
    exact ih (fun x hx => h x (List.mem_cons_of_mem c hx))

theorem alnum_hyp_false (c : Nat) (h : isAlnumCp c = true) : isHyp c = false := by
  simp only [isAlnumCp, decide_eq_true_eq] at h
  simp only [isHyp, decide_eq_false_iff_not]
  omega

theorem collapse_all_non (l : List Nat) (h : ∀ x ∈ l, isAlnumCp x = false) :
    rdrop isHyp (collapseRuns l) = [] := by
  cases l with
  | nil => rw [collapseRuns_nil]; rfl
  | cons c rest =>
    have hc : isAlnumCp c = false := h c (by simp)
    have hall : ∀ x ∈ rest, nonAl x = true := by
      intro x hx
      simp [nonAl, h x (List.mem_cons_of_mem c hx)]
    rw [collapseRuns_cons_neg c rest hc, dropWhile_eq_nil_of_all nonAl rest hall,
      collapseRuns_nil]
    simp [rdrop, isHyp]

theorem dropWhile_dropWhile_subset (p q : Nat → Bool) (l : List Nat)
    (hpq : ∀ x, q x = true → p x = true) :
    (l.dropWhile q).dropWhile p = l.dropWhile p := by
  induction l with
  | nil => rfl
  | cons c rest ih =>
    by_cases hq : q c = true
    · rw [List.dropWhile_cons_of_pos hq, ih,
        List.dropWhile_cons_of_pos (hpq c hq)]
    · rw [List.dropWhile_cons_of_neg hq]

theorem rdrop_rdrop_subset (p q : Nat → Bool) (hpq : ∀ x, q x = true → p x = true)
    (l : List Nat) : rdrop p (rdrop q l) = rdrop p l := by
  induction l with
  | nil => rfl
  | cons c rest ih =>
    cases hr : rdrop q rest with
    | nil =>
      have hallq : ∀ x ∈ rest, q x = true := (rdrop_eq_nil_iff q rest).mp hr
      have hrp : rdrop p rest = [] :=
        (rdrop_eq_nil_iff p rest).mpr (fun x hx => hpq x (hallq x hx))
      rw [rdrop_cons_of_nil q c rest hr, rdrop_cons_of_nil p c rest hrp]
      by_cases hqc : q c = true
      · rw [if_pos hqc, if_pos (hpq c hqc)]
        rfl
      · rw [if_neg hqc]
        rw [rdrop_cons_of_nil p c [] rfl]
    | cons a as =>
      rw [rdrop_cons_of_ne q c a rest as hr]
      rw [hr] at ih
      cases hys : rdrop p rest with
      | nil =>
        have h1 : rdrop p (a :: as) = [] := by rw [ih, hys]
        rw [rdrop_cons_of_nil p c _ h1, rdrop_cons_of_nil p c rest hys]
      | cons y ys =>
        have h1 : rdrop p (a :: as) = y :: ys := by rw [ih, hys]
        rw [rdrop_cons_of_ne p c y _ ys h1, rdrop_cons_of_ne p c y rest ys hys]

theorem dropWhile_rdrop_comm (p : Nat → Bool) (l : List Nat) :
    (rdrop p l).dropWhile p = rdrop p (l.dropWhile p) := by
  induction l with
  | nil => rfl
  | cons c rest ih =>
    by_cases hc : p c = true
    · cases hr : rdrop p rest with
      | nil =>
        rw [rdrop_cons_of_nil p c rest hr, if_pos hc,
          List.dropWhile_cons_of_pos hc, ← ih, hr]
      | cons a as =>
        rw [rdrop_cons_of_ne p c a rest as hr, List.dropWhile_cons_of_pos hc,
          List.dropWhile_cons_of_pos hc, ← ih, hr]
    · cases hr : rdrop p rest with
      | nil =>
        rw [rdrop_cons_of_nil p c rest hr, if_neg hc,
          List.dropWhile_cons_of_neg hc, List.dropWhile_cons_of_neg hc,
          rdrop_cons_of_nil p c rest hr, if_neg hc]
      | cons a as =>
        rw [rdrop_cons_of_ne p c a rest as hr, List.dropWhile_cons_of_neg hc,
          List.dropWhile_cons_of_neg hc, rdrop_cons_of_ne p c a rest as hr]

/-- Leading non-alphanumeric run: dropping it before collapsing does not
change the front-trimmed result. -/
theorem trimFront_collapse_dropFront (l : List Nat) :
    (collapseRuns (l.dropWhile nonAl)).dropWhile isHyp =
      (collapseRuns l).dropWhile isHyp := by
  cases l with
  | nil => rfl
  | cons c rest =>
    by_cases hc : isAlnumCp c = true
    · rw [List.dropWhile_cons_of_neg (by simp [nonAl, hc])]
    · have hc' : isAlnumCp c = false := by simpa using hc
      rw [List.dropWhile_cons_of_pos (by simp [nonAl, hc']),
        collapseRuns_cons_neg c rest hc',
        List.dropWhile_cons_of_pos (by simp [isHyp])]

/-- Trailing non-alphanumeric run: dropping it before collapsing does not
change the back-trimmed result (fuel-indexed strong induction). -/
theorem trimBack_aux : ∀ (n : Nat) (l : List Nat), l.length ≤ n →
    rdrop isHyp (collapseRuns (rdrop nonAl l)) = rdrop isHyp (collapseRuns l) := by
  intro n
  induction n with
  | zero =>
    intro l hl
    have : l = [] := List.length_eq_zero.mp (Nat.le_zero.mp hl)
    rw [this]
    rfl
  | succ n ih =>
    intro l hl
    cases l with
    | nil => rfl
    | cons c rest =>
      have hrl : rest.length ≤ n := Nat.lt_succ_iff.mp hl
      by_cases hc : isAlnumCp c = true
      · have hcn : nonAl c = false := by simp [nonAl, hc]
        cases hr : rdrop nonAl rest with
        | nil =>
          have hall : ∀ x ∈ rest, isAlnumCp x = false := by
            intro x hx
            have := (rdrop_eq_nil_iff nonAl rest).mp hr x hx
            simpa [nonAl] using this
          rw [rdrop_cons_of_nil nonAl c rest hr, if_neg (by simp [hcn]),
            collapseRuns_cons_pos c [] hc, collapseRuns_nil,
            collapseRuns_cons_pos c rest hc,
            rdrop_cons_of_nil isHyp c [] rfl, if_neg (by simp [alnum_hyp_false c hc]),
            rdrop_cons_of_nil isHyp c _ (collapse_all_non rest hall),
            if_neg (by simp [alnum_hyp_false c hc])]
        | cons a as =>
          rw [rdrop_cons_of_ne nonAl c a rest as hr,
            collapseRuns_cons_pos c _ hc, collapseRuns_cons_pos c rest hc]
          have key : rdrop isHyp (collapseRuns (a :: as)) =
              rdrop isHyp (collapseRuns rest) := by
            have := ih rest hrl
            rw [hr] at this
            exact this
          cases hk : rdrop isHyp (collapseRuns rest) with
          | nil =>
            have h1 : rdrop isHyp (collapseRuns (a :: as)) = [] := by rw [key, hk]
            rw [rdrop_cons_of_nil isHyp c _ h1, rdrop_cons_of_nil isHyp c _ hk]
          | cons y ys =>
            have h1 : rdrop isHyp (collapseRuns (a :: as)) = y :: ys := by rw [key, hk]
            rw [rdrop_cons_of_ne isHyp c y _ ys h1, rdrop_cons_of_ne isHyp c y _ ys hk]
      · have hc' : isAlnumCp c = false := by simpa using hc
        have hcn : nonAl c = true := by simp [nonAl, hc']
        cases hr : rdrop nonAl rest with
        | nil =>
          have hall : ∀ x ∈ rest, isAlnumCp x = false := by
            intro x hx
            have := (rdrop_eq_nil_iff nonAl rest).mp hr x hx
            simpa [nonAl] using this
          rw [rdrop_cons_of_nil nonAl c rest hr, if_pos hcn, collapseRuns_nil,
            collapse_all_non (c :: rest) (by
              intro x hx
              rcases List.mem_cons.mp hx with h | h
              · rw [h]; exact hc'
              · exact hall x h)]
          rfl
        | cons a as =>
          rw [rdrop_cons_of_ne nonAl c a rest as hr,
            collapseRuns_cons_neg c _ hc', collapseRuns_cons_neg c rest hc']
          have hcomm := dropWhile_rdrop_comm nonAl rest
          rw [hr] at hcomm
          have hlen : (rest.dropWhile nonAl).length ≤ n :=
            Nat.le_trans (length_dropWhile_le nonAl rest) hrl
          have key : rdrop isHyp (collapseRuns ((a :: as).dropWhile nonAl)) =
              rdrop isHyp (collapseRuns (rest.dropWhile nonAl)) := by
            rw [hcomm]
            exact ih (rest.dropWhile nonAl) hlen
          cases hk : rdrop isHyp (collapseRuns (rest.dropWhile nonAl)) with
          | nil =>
            have h1 : rdrop isHyp (collapseRuns ((a :: as).dropWhile nonAl)) = [] := by
              rw [key, hk]
            rw [rdrop_cons_of_nil isHyp 45 _ h1, rdrop_cons_of_nil isHyp 45 _ hk]
          | cons y ys =>
            have h1 : rdrop isHyp (collapseRuns ((a :: as).dropWhile nonAl)) = y :: ys := by
              rw [key, hk]
            rw [rdrop_cons_of_ne isHyp 45 y _ ys h1, rdrop_cons_of_ne isHyp 45 y _ ys hk]

theorem isWsCp_lower (c : Nat) : isWsCp (lowerCp c) = isWsCp c := by
  unfold isWsCp lowerCp
  split
  · rename_i h
    rw [decide_eq_decide]
    omega
  · rfl

theorem map_lower_dropWhile_ws (l : List Nat) :
    (l.dropWhile isWsCp).map lowerCp = (l.map lowerCp).dropWhile isWsCp := by
  induction l with
  | nil => rfl
  | cons c rest ih =>
    by_cases hc : isWsCp c = true
    · rw [List.dropWhile_cons_of_pos hc, ih, List.map_cons,
        List.dropWhile_cons_of_pos (by rw [isWsCp_lower]; exact hc)]
    · rw [List.dropWhile_cons_of_neg hc, List.map_cons,
        List.dropWhile_cons_of_neg (by rw [isWsCp_lower]; exact hc)]

theorem map_lower_rdrop_ws (l : List Nat) :
    (rdrop isWsCp l).map lowerCp = rdrop isWsCp (l.map lowerCp) := by
  induction l with
  | nil => rfl
  | cons c rest ih =>
    cases hr : rdrop isWsCp rest with
    | nil =>
      have h1 : rdrop isWsCp (rest.map lowerCp) = [] := by
        rw [← ih, hr]; rfl
      rw [rdrop_cons_of_nil isWsCp c rest hr, List.map_cons,
        rdrop_cons_of_nil isWsCp (lowerCp c) _ h1, ← isWsCp_lower c]
      by_cases hc : isWsCp (lowerCp c) = true
      · rw [if_pos hc, if_pos hc]; rfl
      · rw [if_neg hc, if_neg hc]; rfl
    | cons a as =>
      have h1 : rdrop isWsCp (rest.map lowerCp) = lowerCp a :: as.map lowerCp := by
        rw [← ih, hr]
        rfl
      conv_rhs => rw [List.map_cons]
      rw [rdrop_cons_of_ne isWsCp (lowerCp c) (lowerCp a) (rest.map lowerCp)
          (as.map lowerCp) h1,
        rdrop_cons_of_ne isWsCp c a rest as hr]
      rfl

theorem ws_non_alnum (x : Nat) (h : isWsCp x = true) : nonAl x = true := by
  simp only [isWsCp, decide_eq_true_eq] at h
  simp only [nonAl, isAlnumCp, Bool.not_eq_true', decide_eq_false_iff_not]
  omega

/-- The source `slugify` computes exactly the claim's described
derivation: the whitespace pre-strip performed by the code is absorbed by
run collapsing and hyphen trimming. -/
theorem slugify_eq_claimSlug (value : PyStr) : slugify value = claimSlug value := by
  unfold slugify claimSlug pyStrip
  have step1 : (rdrop isWsCp (value.dropWhile isWsCp)).map lowerCp =
      rdrop isWsCp ((value.map lowerCp).dropWhile isWsCp) := by
    rw [map_lower_rdrop_ws, map_lower_dropWhile_ws]
  rw [step1]
  set w := value.map lowerCp with hw
  have back : rdrop isHyp (collapseRuns (rdrop isWsCp (w.dropWhile isWsCp))) =
      rdrop isHyp (collapseRuns (w.dropWhile isWsCp)) := by
    have h1 : rdrop nonAl (rdrop isWsCp (w.dropWhile isWsCp)) =
        rdrop nonAl (w.dropWhile isWsCp) :=
      rdrop_rdrop_subset nonAl isWsCp ws_non_alnum _
    calc rdrop isHyp (collapseRuns (rdrop isWsCp (w.dropWhile isWsCp)))
        = rdrop isHyp (collapseRuns (rdrop nonAl
            (rdrop isWsCp (w.dropWhile isWsCp)))) :=
          (trimBack_aux _ _ (Nat.le_refl _)).symm
      _ = rdrop isHyp (collapseRuns (rdrop nonAl (w.dropWhile isWsCp))) := by
          rw [h1]
      _ = rdrop isHyp (collapseRuns (w.dropWhile isWsCp)) :=
          trimBack_aux _ _ (Nat.le_refl _)
  have front : (collapseRuns (w.dropWhile isWsCp)).dropWhile isHyp =
      (collapseRuns w).dropWhile isHyp := by
    have h1 : (w.dropWhile isWsCp).dropWhile nonAl = w.dropWhile nonAl :=
      dropWhile_dropWhile_subset nonAl isWsCp w ws_non_alnum
    calc (collapseRuns (w.dropWhile isWsCp)).dropWhile isHyp
        = (collapseRuns ((w.dropWhile isWsCp).dropWhile nonAl)).dropWhile isHyp :=
          (trimFront_collapse_dropFront _).symm
      _ = (collapseRuns (w.dropWhile nonAl)).dropWhile isHyp := by rw [h1]
      _ = (collapseRuns w).dropWhile isHyp := trimFront_collapse_dropFront w
  have main : stripHyphens (collapseRuns (rdrop isWsCp (w.dropWhile isWsCp))) =
      stripHyphens (collapseRuns w) := by
    unfold stripHyphens
    rw [← dropWhile_rdrop_comm isHyp (collapseRuns (rdrop isWsCp (w.dropWhile isWsCp))),
      back, dropWhile_rdrop_comm isHyp (collapseRuns (w.dropWhile isWsCp)), front,
      ← dropWhile_rdrop_comm isHyp (collapseRuns w)]
  rw [main]

theorem descOf_append (l q : AbsPath) : descOf l (l ++ q) = true := by
  induction l with
  | nil => rfl
  | cons a as ih => simp [descOf, ih]

theorem descOf_iff_append (b p : AbsPath) :
    descOf b p = true ↔ ∃ q, p = b ++ q := by
  constructor
  · intro h
    induction b generalizing p with
    | nil => exact ⟨p, rfl⟩
    | cons a as ih =>
      cases p with
      | nil => cases h
      | cons x xs =>
        simp only [descOf, Bool.and_eq_true, beq_iff_eq] at h
        obtain ⟨q, hq⟩ := ih xs h.2
        exact ⟨q, by rw [h.1, hq]; rfl⟩
  · rintro ⟨q, rfl⟩
    exact descOf_append b q

theorem descOf_trans (a b c : AbsPath) (h1 : descOf a b = true)
    (h2 : descOf b c = true) : descOf a c = true := by
  obtain ⟨q1, rfl⟩ := (descOf_iff_append a b).mp h1
  obtain ⟨q2, rfl⟩ := (descOf_iff_append (a ++ q1) c).mp h2
  rw [List.append_assoc]
  exact descOf_append a (q1 ++ q2)

theorem descOf_append_drop (b p : AbsPath) (h : descOf b p = true) :
    p = b ++ p.drop b.length := by
  obtain ⟨q, rfl⟩ := (descOf_iff_append b p).mp h
  rw [List.drop_left]

theorem descOf_compare : ∀ (a b p : AbsPath), descOf a p = true →
    descOf b p = true → descOf a b = true ∨ descOf b a = true := by
  intro a
  induction a with
  | nil =>
    intro b p _ _
    left
    rfl
  | cons x xs ih =>
    intro b p ha hb
    cases p with
    | nil => cases ha
    | cons y ys =>
      simp only [descOf, Bool.and_eq_true, beq_iff_eq] at ha
      cases b with
      | nil =>
        right
        rfl
      | cons z zs =>
        simp only [descOf, Bool.and_eq_true, beq_iff_eq] at hb
        rcases ih zs ys ha.2 hb.2 with h | h
        · left
          simp [descOf, ha.1, hb.1, h]
        · right
          simp [descOf, ha.1, hb.1, h]

theorem b64groups_cons4 (c1 c2 c3 c4 : Nat) (rest : PyStr) :
    b64groups (c1 :: c2 :: c3 :: c4 :: rest) =
      if b64isAl c1 && b64isAl c2 then
        if c3 == 61 && c4 == 61 && rest.isEmpty then
          some [b64sext c1 * 4 + b64sext c2 / 16]
        else if b64isAl c3 && c4 == 61 && rest.isEmpty then
          some [b64sext c1 * 4 + b64sext c2 / 16,
            b64sext c2 % 16 * 16 + b64sext c3 / 4]
        else if b64isAl c3 && b64isAl c4 then
          (b64groups rest).map (fun bs =>
            (b64sext c1 * 4 + b64sext c2 / 16) ::
              (b64sext c2 % 16 * 16 + b64sext c3 / 4) ::
              (b64sext c3 % 4 * 64 + b64sext c4) :: bs)
        else none
      else none := rfl

theorem b64val_chr (s : Nat) (h : s < 64) : b64val (b64chr s) = some s := by
  have key : ∀ t : Fin 64, b64val (b64chr t.val) = some t.val := by decide
  exact key ⟨s, h⟩

theorem b64chr_ne_pad (s : Nat) (h : s < 64) : (b64chr s == 61) = false := by
  have key : ∀ t : Fin 64, (b64chr t.val == 61) = false := by decide
  exact key ⟨s, h⟩

theorem b64isAl_chr (s : Nat) (h : s < 64) : b64isAl (b64chr s) = true := by
  rw [b64isAl, b64val_chr s h]
  rfl

theorem b64keep_chr (s : Nat) (h : s < 64) : b64keep (b64chr s) = true := by
  rw [b64keep, b64val_chr s h]
  rfl

theorem b64sext_chr (s : Nat) (h : s < 64) : b64sext (b64chr s) = s := by
  rw [b64sext, b64val_chr s h]
  rfl

/-- Round-trip of canonical base64 over arbitrary byte lists
(fuel-indexed induction over 3-byte chunks). -/
theorem b64_roundtrip_aux : ∀ (n : Nat) (data : Bytes), data.length ≤ n →
    (∀ b ∈ data, b < 256) → b64decode (b64encode data) = some data := by
  intro n
  induction n with
  | zero =>
    intro data hl _
    have : data = [] := List.length_eq_zero.mp (Nat.le_zero.mp hl)
    rw [this]
    rfl
  | succ n ih =>
    intro data hl hb
    match data with
    | [] => rfl
    | [a] =>
      have ha : a < 256 := hb a (by simp)
      have h1 : a / 4 < 64 := by omega
      have h2 : a % 4 * 16 < 64 := by omega
      show b64groups (List.filter b64keep
        [b64chr (a / 4), b64chr (a % 4 * 16), 61, 61]) = some [a]
      rw [List.filter_cons_of_pos (b64keep_chr _ h1),
        List.filter_cons_of_pos (b64keep_chr _ h2),
        List.filter_cons_of_pos (by rfl), List.filter_cons_of_pos (by rfl),
        List.filter_nil, b64groups_cons4,
        if_pos (by rw [b64isAl_chr _ h1, b64isAl_chr _ h2]; rfl),
        if_pos (by rfl), b64sext_chr _ h1, b64sext_chr _ h2]
      congr 2
      omega
    | [a, b] =>
      have ha : a < 256 := hb a (by simp)
      have hbb : b < 256 := hb b (by simp)
      have h1 : a / 4 < 64 := by omega
      have h2 : a % 4 * 16 + b / 16 < 64 := by omega
      have h3 : b % 16 * 4 < 64 := by omega
      show b64groups (List.filter b64keep
        [b64chr (a / 4), b64chr (a % 4 * 16 + b / 16), b64chr (b % 16 * 4), 61]) =
        some [a, b]
      rw [List.filter_cons_of_pos (b64keep_chr _ h1),
        List.filter_cons_of_pos (b64keep_chr _ h2),
        List.filter_cons_of_pos (b64keep_chr _ h3),
        List.filter_cons_of_pos (by rfl), List.filter_nil, b64groups_cons4,
        if_pos (by rw [b64isAl_chr _ h1, b64isAl_chr _ h2]; rfl),
        if_neg (by rw [b64chr_ne_pad _ h3]; simp),
        if_pos (by rw [b64isAl_chr _ h3]; rfl),
        b64sext_chr _ h1, b64sext_chr _ h2, b64sext_chr _ h3]
      congr 1
      have e1 : a / 4 * 4 + (a % 4 * 16 + b / 16) / 16 = a := by omega
      have e2 : (a % 4 * 16 + b / 16) % 16 * 16 + b % 16 * 4 / 4 = b := by omega
      rw [e1, e2]
    | a :: b :: c :: rest =>
      have ha : a < 256 := hb a (by simp)
      have hbb : b < 256 := hb b (by simp)
      have hc : c < 256 := hb c (by simp)
      have h1 : a / 4 < 64 := by omega
      have h2 : a % 4 * 16 + b / 16 < 64 := by omega
      have h3 : b % 16 * 4 + c / 64 < 64 := by omega
      have h4 : c % 64 < 64 := by omega
      have hrest : b64groups (List.filter b64keep (b64encode rest)) = some rest := by
        apply ih rest
        · have := hl
          simp only [List.length_cons] at this
          omega
        · intro x hx
          exact hb x (by simp [hx])
      show b64groups (List.filter b64keep
        (b64chr (a / 4) :: b64chr (a % 4 * 16 + b / 16) ::
          b64chr (b % 16 * 4 + c / 64) :: b64chr (c % 64) :: b64encode rest)) =
        some (a :: b :: c :: rest)
      rw [List.filter_cons_of_pos (b64keep_chr _ h1),
        List.filter_cons_of_pos (b64keep_chr _ h2),
        List.filter_cons_of_pos (b64keep_chr _ h3),
        List.filter_cons_of_pos (b64keep_chr _ h4), b64groups_cons4,
        if_pos (by rw [b64isAl_chr _ h1, b64isAl_chr _ h2]; rfl),
        if_neg (by rw [b64chr_ne_pad _ h3]; simp),
        if_neg (by rw [b64chr_ne_pad _ h4]; simp),
        if_pos (by rw [b64isAl_chr _ h3, b64isAl_chr _ h4]; rfl),
        hrest, b64sext_chr _ h1, b64sext_chr _ h2, b64sext_chr _ h3,
        b64sext_chr _ h4]
      have e1 : a / 4 * 4 + (a % 4 * 16 + b / 16) / 16 = a := by omega
      have e2 : (a % 4 * 16 + b / 16) % 16 * 16 + (b % 16 * 4 + c / 64) / 4 = b := by
        omega
      have e3 : (b % 16 * 4 + c / 64) % 4 * 64 + c % 64 = c := by omega
      simp only [Option.map_some', e1, e2, e3]

theorem b64_roundtrip (data : Bytes) (h : ∀ b ∈ data, b < 256) :
    b64decode (b64encode data) = some data :=
  b64_roundtrip_aux data.length data (Nat.le_refl _) h

/-! ### Helper lemmas for path resolution and the sandbox -/

theorem resolve_within_ok_desc (base : AbsPath) (rel : RelPath) (p : AbsPath)
    (h : resolve_within base rel = .ok p) : descOf base p = true := by
  unfold resolve_within at h
  by_cases hd : descOf base (joinResolve base rel) = true
  · rw [if_pos hd] at h
    rw [← Except.ok.inj h]
    exact hd
  · rw [if_neg hd] at h
    exact Except.noConfusion h

theorem resolve_within_escape (base : AbsPath) (rel : RelPath)
    (h : descOf base (joinResolve base rel) = false) :
    resolve_within base rel = .error (.pathEscapes rel base) := by
  unfold resolve_within
  rw [if_neg (by simp [h])]

theorem decode_ok_encoding (content : PyStr) (encoding : String) (bs : Bytes)
    (h : decode_payload_content content encoding = .ok bs) :
    encoding = "text" ∨ encoding = "base64" := by
  unfold decode_payload_content at h
  by_cases h1 : encoding = "text"
  · exact Or.inl h1
  · rw [if_neg h1] at h
    by_cases h2 : encoding = "base64"
    · exact Or.inr h2
    · rw [if_neg h2] at h
      exact Except.noConfusion h

theorem stdin_ok_encoding (c : PyStr) (e : String) (v : Option Bytes)
    (h : stdinBytes (.mapping c e) = .ok v) : e = "text" ∨ e = "base64" := by
  have h' : (match decode_payload_content c e with
    | Except.error er => (Except.error er : Except Err (Option Bytes))
    | Except.ok bs => Except.ok (some bs)) = Except.ok v := h
  cases hdec : decode_payload_content c e with
  | error er =>
    rw [hdec] at h'
    exact Except.noConfusion h'
  | ok bs => exact decode_ok_encoding c e bs hdec

theorem writeFiles_frame (dest : AbsPath) :
    ∀ (entries : List FileEntry) (fs : Fs) (p : AbsPath),
      descOf dest p = false → (writeFiles dest fs entries).1 p = fs p := by
  intro entries
  induction entries with
  | nil =>
    intro fs p _
    rfl
  | cons entry rest ih =>
    intro fs p hp
    rcases entry with ⟨epath, econtent, eenc⟩
    cases epath with
    | none => rfl
    | some rel =>
      cases econtent with
      | none => rfl
      | some content =>
        show (match resolve_within dest rel with
          | .error e => (fs, some e)
          | .ok q =>
            match decode_payload_content content eenc with
            | .error e => (fs, some e)
            | .ok bytes => writeFiles dest (fsWrite fs q bytes) rest).1 p = fs p
        cases hres : resolve_within dest rel with
        | error e => rfl
        | ok q =>
          cases hdec : decode_payload_content content eenc with
          | error e => rfl
          | ok bytes =>
            have hq : descOf dest q = true := resolve_within_ok_desc dest rel q hres
            have hne : p ≠ q := by
              intro he
              rw [he, hq] at hp
              exact Bool.noConfusion hp
            show (writeFiles dest (fsWrite fs q bytes) rest).1 p = fs p
            rw [ih (fsWrite fs q bytes) p hp]
            simp [fsWrite, hne]

theorem writeFiles_ok_encodings (dest : AbsPath) :
    ∀ (entries : List FileEntry) (fs : Fs),
      (writeFiles dest fs entries).2 = none →
      ∀ f ∈ entries, f.encoding = "text" ∨ f.encoding = "base64" := by
  intro entries
  induction entries with
  | nil =>
    intro fs _ f hf
    cases hf
  | cons entry rest ih =>
    intro fs h f hf
    rcases entry with ⟨epath, econtent, eenc⟩
    cases epath with
    | none => exact Option.noConfusion h
    | some rel =>
      cases econtent with
      | none => exact Option.noConfusion h
      | some content =>
        have h' : (match resolve_within dest rel with
          | .error e => (fs, some e)
          | .ok q =>
            match decode_payload_content content eenc with
            | .error e => (fs, some e)
            | .ok bytes => writeFiles dest (fsWrite fs q bytes) rest).2 = none := h
        cases hres : resolve_within dest rel with
        | error e =>
          rw [hres] at h'
          exact Option.noConfusion h'
        | ok q =>
          rw [hres] at h'
          cases hdec : decode_payload_content content eenc with
          | error e =>
            rw [hdec] at h'
            exact Option.noConfusion h'
          | ok bytes =>
            rw [hdec] at h'
            rcases List.mem_cons.mp hf with he | he
            · rw [he]
              exact decode_ok_encoding content eenc bytes hdec
            · exact ih (fsWrite fs q bytes) h' f he

/-- The final filesystem of `run_script` coincides with the initial one,
given that the temporary root is fresh and the child process only writes
inside the workspace. -/
theorem run_script_fs_eq (fs : Fs) (skillDir tmpRoot : AbsPath) (relPath : RelPath)
    (payload : Payload) (timeout : Nat) (command : Option (List String))
    (exec : ExecOutcome) (childEffect : Fs → Fs)
    (hfresh : ∀ p, descOf tmpRoot p = true → fs p = none)
    (hchild : ∀ (g : Fs) (p : AbsPath), descOf tmpRoot p = false →
      childEffect g p = g p) :
    ∀ p, (run_script fs skillDir tmpRoot relPath payload timeout command exec
      childEffect).fs p = fs p := by
  intro p
  have hdd : descOf tmpRoot (tmpRoot ++ [relName skillDir]) = true :=
    descOf_append _ _
  by_cases hp : descOf tmpRoot p = true
  · have h0 : fs p = none := hfresh p hp
    unfold run_script
    repeat' split
    all_goals first
      | rfl
      | (show removeTree _ tmpRoot p = fs p
         simp [removeTree, hp, h0])
  · have hp' : descOf tmpRoot p = false := by simpa using hp
    have hdp : descOf (tmpRoot ++ [relName skillDir]) p = false := by
      cases hdpc : descOf (tmpRoot ++ [relName skillDir]) p with
      | false => rfl
      | true =>
        rw [descOf_trans tmpRoot (tmpRoot ++ [relName skillDir]) p hdd hdpc] at hp'
        exact Bool.noConfusion hp'
    have hcopy : copyTree fs skillDir (tmpRoot ++ [relName skillDir]) p = fs p := by
      simp [copyTree, hdp]
    have hwf : workFs fs skillDir tmpRoot payload.files p = fs p := by
      unfold workFs
      rw [writeFiles_frame _ _ _ _ hdp, hcopy]
    have hce : childEffect (workFs fs skillDir tmpRoot payload.files) p = fs p := by
      rw [hchild _ p hp', hwf]
    unfold run_script
    repeat' split
    all_goals first
      | rfl
      | (show removeTree _ tmpRoot p = fs p
         simp only [removeTree, hp', if_neg (by simp : ¬False = true)]
         first | exact hcopy | exact hwf | exact hce)

/-! ### Helper lemmas for the registry -/

theorem find?_append_some {α : Type} (p : α → Bool) (l₁ l₂ : List α) (a : α)
    (h : l₁.find? p = some a) : (l₁ ++ l₂).find? p = some a := by
  induction l₁ with
  | nil => cases h
  | cons x xs ih =>
    rw [List.cons_append]
    by_cases hx : p x = true
    · rw [List.find?_cons_of_pos _ hx] at h
      rw [List.find?_cons_of_pos _ hx]
      exact h
    · rw [List.find?_cons_of_neg _ hx] at h
      rw [List.find?_cons_of_neg _ hx]
      exact ih h

theorem find?_append_none {α : Type} (p : α → Bool) (l₁ l₂ : List α)
    (h : l₁.find? p = none) : (l₁ ++ l₂).find? p = l₂.find? p := by
  induction l₁ with
  | nil => rfl
  | cons x xs ih =>
    rw [List.cons_append]
    by_cases hx : p x = true
    · rw [List.find?_cons_of_pos _ hx] at h
      cases h
    · rw [List.find?_cons_of_neg _ hx] at h
      rw [List.find?_cons_of_neg _ hx]
      exact ih h

theorem assoc_find_append {β : Type} (l₁ l₂ : List (PyStr × β)) (s : PyStr) (b : β)
    (h : (l₁.find? (fun kv => kv.1 == s)).map (fun kv => kv.2) = some b) :
    ((l₁ ++ l₂).find? (fun kv => kv.1 == s)).map (fun kv => kv.2) = some b := by
  cases hf : l₁.find? (fun kv => kv.1 == s) with
  | none =>
    rw [hf] at h
    cases h
  | some kv =>
    rw [hf] at h
    rw [find?_append_some _ _ l₂ kv hf]
    exact h

theorem loadStep_mono (root : AbsPath) (st : RegState) (ch : Child) (s : PyStr)
    (sk : Skill) (h : lookupSlug st s = some sk) :
    lookupSlug (loadStep root st ch) s = some sk := by
  cases ch with
  | nonDir n => exact h
  | dirNoManifest n => exact h
  | dirManifest name fm entries =>
    cases hp : parse_skill_md fm with
    | error e => simpa only [loadStep, hp] using h
    | ok mb =>
      rcases mb with ⟨meta, body⟩
      simp only [loadStep, hp]
      by_cases h1 : (lookupSlug st (slugify meta.name)).isSome = true
      · rw [if_pos h1]
        exact h
      · rw [if_neg h1]
        by_cases h2 : (lookupName st meta.name).isSome = true
        · rw [if_pos h2]
          exact h
        · rw [if_neg h2]
          unfold lookupSlug at h ⊢
          exact assoc_find_append _ _ s sk h

theorem loadFold_mono (root : AbsPath) : ∀ (l : List Child) (st : RegState)
    (s : PyStr) (sk : Skill), lookupSlug st s = some sk →
    lookupSlug (l.foldl (loadStep root) st) s = some sk := by
  intro l
  induction l with
  | nil =>
    intro st s sk h
    exact h
  | cons c cs ih =>
    intro st s sk h
    exact ih _ s sk (loadStep_mono root st c s sk h)

theorem lookup_none_key_not_mem {β : Type} (l : List (PyStr × β)) (s : PyStr)
    (h : ((l.find? (fun kv => kv.1 == s)).map (fun kv => kv.2)).isSome = false) :
    s ∉ l.map Prod.fst := by
  intro hmem
  obtain ⟨kv, hkv, hfst⟩ := List.mem_map.mp hmem
  have hfind : l.find? (fun kv => kv.1 == s) = none := by
    cases hf : l.find? (fun kv => kv.1 == s) with
    | none => rfl
    | some x =>
      rw [hf] at h
      cases h
  have := List.find?_eq_none.mp hfind kv hkv
  rw [hfst] at this
  simp at this

theorem loadStep_nodup (root : AbsPath) (st : RegState) (ch : Child)
    (h : (st.bySlug.map Prod.fst).Nodup) :
    ((loadStep root st ch).bySlug.map Prod.fst).Nodup := by
  cases ch with
  | nonDir n => exact h
  | dirNoManifest n => exact h
  | dirManifest name fm entries =>
    cases hp : parse_skill_md fm with
    | error e => simpa only [loadStep, hp] using h
    | ok mb =>
      rcases mb with ⟨meta, body⟩
      simp only [loadStep, hp]
      by_cases h1 : (lookupSlug st (slugify meta.name)).isSome = true
      · rw [if_pos h1]
        exact h
      · rw [if_neg h1]
        by_cases h2 : (lookupName st meta.name).isSome = true
        · rw [if_pos h2]
          exact h
        · rw [if_neg h2]
          show ((st.bySlug ++ [(slugify meta.name, mkSkill root name meta entries)]).map
            Prod.fst).Nodup
          rw [List.map_append]
          refine List.Nodup.append h (List.nodup_singleton _) ?_
          intro a ha hb
          simp only [List.map_cons, List.map_nil, List.mem_singleton] at hb
          rw [hb] at ha
          have hnone : ((st.bySlug.find? (fun kv => kv.1 == slugify meta.name)).map
              (fun kv => kv.2)).isSome = false := by
            cases hq : st.bySlug.find? (fun kv => kv.1 == slugify meta.name) with
            | none => rfl
            | some kv =>
              refine absurd ?_ h1
              unfold lookupSlug
              rw [hq]
              rfl
          exact lookup_none_key_not_mem st.bySlug (slugify meta.name) hnone ha

theorem loadFold_nodup (root : AbsPath) : ∀ (l : List Child) (st : RegState),
    (st.bySlug.map Prod.fst).Nodup →
    (((l.foldl (loadStep root) st).bySlug.map Prod.fst)).Nodup := by
  intro l
  induction l with
  | nil =>
    intro st h
    exact h
  | cons c cs ih =>
    intro st h
    exact ih _ (loadStep_nodup root st c h)

theorem collect_resources_no_manifest (entries : List (List String × Bool)) :
    ∀ r ∈ (entries.filter (fun e => e.2 &&
        !(relName e.1 == "SKILL.md" && e.1 == skillMdPath))).map (fun e => e.1),
      r ≠ skillMdPath := by
  intro r hr
  obtain ⟨e, he, hfst⟩ := List.mem_map.mp hr
  have hp := List.of_mem_filter he
  intro hcontra
  rw [hcontra] at hfst
  rw [hfst] at hp
  simp [relName, skillMdPath] at hp

theorem loadStep_resources (root : AbsPath) (st : RegState) (ch : Child)
    (h : ∀ s sk, lookupSlug st s = some sk →
      ∃ entries, sk.resources = collect_resources entries) :
    ∀ s sk, lookupSlug (loadStep root st ch) s = some sk →
      ∃ entries, sk.resources = collect_resources entries := by
  intro s sk hs
  cases ch with
  | nonDir n => exact h s sk hs
  | dirNoManifest n => exact h s sk hs
  | dirManifest name fm entries =>
    simp only [loadStep] at hs
    cases hp : parse_skill_md fm with
    | error e =>
      rw [hp] at hs
      exact h s sk hs
    | ok mb =>
      rcases mb with ⟨meta, body⟩
      rw [hp] at hs
      simp only [] at hs
      by_cases h1 : (lookupSlug st (slugify meta.name)).isSome = true
      · rw [if_pos h1] at hs
        exact h s sk hs
      · rw [if_neg h1] at hs
        by_cases h2 : (lookupName st meta.name).isSome = true
        · rw [if_pos h2] at hs
          exact h s sk hs
        · rw [if_neg h2] at hs
          unfold lookupSlug at hs
          cases hf : st.bySlug.find? (fun kv => kv.1 == s) with
          | some kv =>
            rw [find?_append_some (fun kv => kv.1 == s) st.bySlug
              [(slugify meta.name, mkSkill root name meta entries)] kv hf] at hs
            refine h s sk ?_
            unfold lookupSlug
            rw [hf]
            exact hs
          | none =>
            rw [find?_append_none _ _ _ hf] at hs
            simp only [List.find?] at hs
            by_cases hk : (slugify meta.name == s) = true
            · simp only [hk] at hs
              refine ⟨entries, ?_⟩
              rw [← Option.some.inj hs]
              rfl
            · rw [Bool.not_eq_true] at hk
              simp only [hk] at hs
              exact absurd hs (by simp)

theorem loadFold_resources (root : AbsPath) : ∀ (l : List Child) (st : RegState),
    (∀ s sk, lookupSlug st s = some sk →
      ∃ entries, sk.resources = collect_resources entries) →
    ∀ s sk, lookupSlug (l.foldl (loadStep root) st) s = some sk →
      ∃ entries, sk.resources = collect_resources entries := by
  intro l
  induction l with
  | nil =>
    intro st h
    exact h
  | cons c cs ih =>
    intro st h
    exact ih _ (loadStep_resources root st c h)

theorem filter_map_fst (q : String → Bool) (es : List (String × YVal)) :
    (es.filter (fun kv => q kv.1)).map Prod.fst = (es.map Prod.fst).filter q := by
  induction es with
  | nil => rfl
  | cons kv rest ih =>
    cases hq : q kv.1 with
    | true => simp [List.filter_cons, hq, ih]
    | false => simp [List.filter_cons, hq, ih]

/-! ### Claim theorems -/

/-- C9: for every input string, `slugify` returns the string lowercased
with every maximal run of non-alphanumeric characters collapsed to a
single hyphen and leading/trailing hyphens trimmed, falling back to the
fixed non-empty token `"skill"` when the result would be empty
(`claimSlug` is that derivation verbatim); the derivation is
deterministic; and `slugify "Echo" = "echo"`. -/
theorem claim_C9_slugify (value : PyStr) :
    slugify value = claimSlug value ∧
    (∀ w : PyStr, value = w → slugify value = slugify w) ∧
    slugify [69, 99, 104, 111] = [101, 99, 104, 111] :=
  ⟨slugify_eq_claimSlug value, fun w hw => by rw [hw], by decide⟩

theorem claim_C9_slugify_witness :
    slugify [69, 99, 104, 111] = claimSlug [69, 99, 104, 111] ∧
    slugify [69, 99, 104, 111] = slugify [69, 99, 104, 111] :=
  ⟨(claim_C9_slugify [69, 99, 104, 111]).1,
    (claim_C9_slugify [69, 99, 104, 111]).2.1 [69, 99, 104, 111] rfl⟩

/-- C8: `encode_output` never raises on any byte sequence: on strictly
valid UTF-8 it returns the text encoding with the decoded string,
otherwise the base64 encoding whose content decodes back to exactly the
original bytes (round-trip law). -/
theorem claim_C8_encode_output (data : Bytes) (h : ∀ b ∈ data, b < 256) :
    (∀ text, utf8Decode data = some text → encode_output data = .textOut text) ∧
    (utf8Decode data = none →
      encode_output data = .base64Out (b64encode data) ∧
      b64decode (b64encode data) = some data) := by
  constructor
  · intro text ht
    unfold encode_output
    rw [ht]
  · intro hn
    constructor
    · unfold encode_output
      rw [hn]
    · exact b64_roundtrip data h

theorem claim_C8_encode_output_witness :
    encode_output [255, 254, 0, 1] = .base64Out (b64encode [255, 254, 0, 1]) ∧
    b64decode (b64encode [255, 254, 0, 1]) = some [255, 254, 0, 1] :=
  (claim_C8_encode_output [255, 254, 0, 1] (by decide)).2 (by decide)

/-- C3: `parse_skill_md` fails with a Validation error exactly when the
front-matter marker block is absent, the header fails to parse, the
header does not decode to a mapping, or a required field (name,
description) is empty after trimming — `claimParseFails` is that
condition verbatim; on success, `extra` holds exactly the header keys
outside the recognized set. -/
theorem claim_C3_parse_skill_md (fm : FMBlock) :
    match parse_skill_md fm with
    | .error _ => claimParseFails fm = true
    | .ok (m, _) => claimParseFails fm = false ∧
        m.extra.map Prod.fst =
          ((headerEntries fm).map Prod.fst).filter
            (fun k => !(recognizedKeys.contains k)) := by
  cases fm with
  | absent => rfl
  | present header body =>
    cases header with
    | none => rfl
    | some doc =>
      cases doc with
      | scalar v =>
        by_cases hv : pyTruthy v = true
        · have hparse : parse_skill_md (.present (some (.scalar v)) body) =
              .error .notMapping := by
            simp [parse_skill_md, yamlOrEmpty, hv]
          rw [hparse]
          rfl
        · have hv' : pyTruthy v = false := by simpa using hv
          have hparse : parse_skill_md (.present (some (.scalar v)) body) =
              .error .missingName := by
            simp [parse_skill_md, yamlOrEmpty, hv', pyStrip, pyToStr, ymGet, rdrop]
          rw [hparse]
          rfl
      | mapping es =>
        have hred : parse_skill_md (.present (some (.mapping es)) body) =
            (if (pyStrip (pyToStr ((ymGet es "name").getD (.strv [])))).isEmpty
              then .error .missingName
            else if (pyStrip (pyToStr ((ymGet es "description").getD
                (.strv [])))).isEmpty then .error .missingDescription
            else .ok (SkillMetadata.mk
                (pyStrip (pyToStr ((ymGet es "name").getD (.strv []))))
                (pyStrip (pyToStr ((ymGet es "description").getD (.strv []))))
                (match ymGet es "license" with
                  | some v => if pyTruthy v then some (pyStrip (pyToStr v)) else none
                  | none => none)
                (allowedFromVal (pyOr
                  (pyOr ((ymGet es "allowed-tools").getD .nullv)
                    ((ymGet es "allowed_tools").getD .nullv)) (.listv [])))
                (es.filter (fun kv => !(recognizedKeys.contains kv.1))),
              body.dropWhile isWsCp)) := rfl
        rw [hred]
        by_cases hname :
            (pyStrip (pyToStr ((ymGet es "name").getD (.strv [])))).isEmpty = true
        · rw [if_pos hname]
          show claimParseFails (.present (some (.mapping es)) body) = true
          simp [claimParseFails, hname]
        · rw [if_neg hname]
          by_cases hdesc : (pyStrip (pyToStr ((ymGet es "description").getD
              (.strv [])))).isEmpty = true
          · rw [if_pos hdesc]
            show claimParseFails (.present (some (.mapping es)) body) = true
            simp [claimParseFails, hdesc]
          · rw [if_neg hdesc]
            constructor
            · show claimParseFails (.present (some (.mapping es)) body) = false
              simp only [claimParseFails, Bool.or_eq_false_iff]
              exact ⟨by simpa using hname, by simpa using hdesc⟩
            · show (es.filter (fun kv => !(recognizedKeys.contains kv.1))).map
                Prod.fst = (es.map Prod.fst).filter
                  (fun k => !(recognizedKeys.contains k))
              exact filter_map_fst (fun k => !(recognizedKeys.contains k)) es

/-- C1: for every base directory and relative path string,
`resolve_within` either returns a path that remains a descendant of the
resolved base or fails with the traversal condition (a `SkillError`);
every relative path whose resolution would escape fails with that
condition; and the read, summarize, run_script and workdir-override
operations all propagate the rejection (the workdir conjunct is stated
for a request that passes every earlier check). -/
theorem claim_C1_resolve_within (base : AbsPath) (rel : RelPath) :
    ((∃ p, resolve_within base rel = .ok p ∧ descOf base p = true) ∨
      resolve_within base rel = .error (.pathEscapes rel base)) ∧
    (descOf base (joinResolve base rel) = false →
      resolve_within base rel = .error (.pathEscapes rel base) ∧
      (Err.pathEscapes rel base).isSkillError = true) ∧
    (∀ (fs : Fs) (guess : String → String) (e : Err),
      resolve_within base rel = .error e →
      readAction fs base (some rel) guess = .error e) ∧
    (∀ (fs : Fs) (sample : Bytes → PyStr) (e : Err),
      resolve_within base rel = .error e →
      summarizeAction fs base true (some rel) sample = .error e) ∧
    (∀ (fs : Fs) (tmpRoot : AbsPath) (payload : Payload) (timeout : Nat)
        (command : Option (List String)) (exec : ExecOutcome)
        (childEffect : Fs → Fs) (e : Err),
      resolve_within base rel = .error e →
      (run_script fs base tmpRoot rel payload timeout command exec
        childEffect).result = .error e ∧
      (run_script fs base tmpRoot rel payload timeout command exec
        childEffect).spawned = false) ∧
    (∀ (fs : Fs) (tmpRoot sp rt : AbsPath) (xs : List String)
        (ov : List (PyStr × PyStr)) (w : RelPath) (timeout : Nat)
        (command : Option (List String)) (exec : ExecOutcome)
        (childEffect : Fs → Fs) (e : Err),
      resolve_within base rel = .ok sp →
      (fs sp).isNone = false →
      resolve_within (tmpRoot ++ [relName base]) rel = .ok rt →
      resolve_within (tmpRoot ++ [relName base]) w = .error e →
      (run_script fs base tmpRoot rel
        ⟨[], .items xs, .absent, .mapping ov, some w⟩ timeout command exec
        childEffect).result = .error e ∧
      (run_script fs base tmpRoot rel
        ⟨[], .items xs, .absent, .mapping ov, some w⟩ timeout command exec
        childEffect).spawned = false) := by
  refine ⟨?_, ?_, ?_, ?_, ?_, ?_⟩
  · by_cases hd : descOf base (joinResolve base rel) = true
    · refine Or.inl ⟨joinResolve base rel, ?_, hd⟩
      unfold resolve_within
      rw [if_pos hd]
    · right
      unfold resolve_within
      rw [if_neg hd]
  · intro hesc
    exact ⟨resolve_within_escape base rel hesc, rfl⟩
  · intro fs guess e he
    simp only [readAction, he]
  · intro fs sample e he
    simp [summarizeAction, he]
  · intro fs tmpRoot payload timeout command exec childEffect e he
    constructor
    · simp only [run_script, he]
    · simp only [run_script, he]
  · intro fs tmpRoot sp rt xs ov w timeout command exec childEffect e hsp hex hrt hwe
    constructor
    · simp [run_script, hsp, hex, hrt, hwe, writeFiles, argsCheck, stdinBytes,
        envCheck]
    · simp [run_script, hsp, hex, hrt, hwe, writeFiles, argsCheck, stdinBytes,
        envCheck]

theorem claim_C1_resolve_within_witness :
    resolve_within ["skills", "echo"] ⟨false, [.up, .up, .name "etc"]⟩ =
      .error (.pathEscapes ⟨false, [.up, .up, .name "etc"]⟩ ["skills", "echo"]) ∧
    (Err.pathEscapes ⟨false, [.up, .up, .name "etc"]⟩
      ["skills", "echo"]).isSkillError = true :=
  (claim_C1_resolve_within ["skills", "echo"]
    ⟨false, [.up, .up, .name "etc"]⟩).2.1 (by decide)

/-- C4 counterexample: in the registry loaded from a concrete root, the
registered skill's `resources` contains the top-level manifest itself
(`_collect_resources` seeds the list with `SKILL.md`), refuting the
claim that every entry addresses a bundle file other than the top-level
`SKILL.md`. -/
theorem claim_C4_counterexample :
    (lookupSlug (registryLoad ["root"] cexChildren) slugEcho).isSome = true ∧
    skillMdPath ∈ ((lookupSlug (registryLoad ["root"] cexChildren) slugEcho).map
      (fun sk => sk.resources)).getD [] := by decide

/-- C4 (amended): every registered skill's `resources` lists the
manifest exactly once, as its seeded first entry; every subsequent entry
addresses a bundle file other than the top-level `SKILL.md`. -/
theorem claim_C4_amended (root : AbsPath) (children : List Child) (s : PyStr)
    (sk : Skill) (h : lookupSlug (registryLoad root children) s = some sk) :
    ∃ rest, sk.resources = skillMdPath :: rest ∧ ∀ r ∈ rest, r ≠ skillMdPath := by
  obtain ⟨entries, he⟩ := loadFold_resources root (sortChildren children) emptyReg
    (by intro s' sk' h'; cases h') s sk h
  refine ⟨_, ?_, collect_resources_no_manifest entries⟩
  rw [he]
  rfl

theorem claim_C4_amended_witness :
    ∃ rest, cexSkill.resources = skillMdPath :: rest ∧ ∀ r ∈ rest, r ≠ skillMdPath :=
  claim_C4_amended ["root"] cexChildren slugEcho cexSkill (by decide)

/-- C5: candidates are processed in sorted order of the root's child
paths; a slug binding, once made, survives every later step (first
registrant wins, loading continues with the state unchanged on either
collision kind); a candidate whose display name is already registered is
skipped; and after load each slug maps to exactly one skill (the slug
keys are nodup). -/
theorem claim_C5_registry_collisions (root : AbsPath) (children : List Child) :
    registryLoad root children =
      (sortChildren children).foldl (loadStep root) emptyReg ∧
    (∀ (l : List Child) (st : RegState) (s : PyStr) (sk : Skill),
      lookupSlug st s = some sk →
      lookupSlug (l.foldl (loadStep root) st) s = some sk) ∧
    (∀ (st : RegState) (name : String) (fm : FMBlock)
        (entries : List (List String × Bool)) (meta : SkillMetadata) (body : PyStr),
      parse_skill_md fm = .ok (meta, body) →
      (lookupSlug st (slugify meta.name)).isSome = true →
      loadStep root st (.dirManifest name fm entries) = st) ∧
    (∀ (st : RegState) (name : String) (fm : FMBlock)
        (entries : List (List String × Bool)) (meta : SkillMetadata) (body : PyStr),
      parse_skill_md fm = .ok (meta, body) →
      (lookupName st meta.name).isSome = true →
      loadStep root st (.dirManifest name fm entries) = st) ∧
    ((registryLoad root children).bySlug.map Prod.fst).Nodup := by
  refine ⟨rfl, loadFold_mono root, ?_, ?_, ?_⟩
  · intro st name fm entries meta body hp h1
    simp only [loadStep, hp]
    rw [if_pos h1]
  · intro st name fm entries meta body hp h2
    simp only [loadStep, hp]
    by_cases h1 : (lookupSlug st (slugify meta.name)).isSome = true
    · rw [if_pos h1]
    · rw [if_neg h1, if_pos h2]
  · exact loadFold_nodup root (sortChildren children) emptyReg List.nodup_nil

theorem claim_C5_registry_collisions_witness :
    lookupSlug ([Child.dirManifest "b" cexEchoBangFm []].foldl (loadStep ["root"])
      (registryLoad ["root"] cexChildren)) slugEcho = some cexSkill ∧
    loadStep ["root"] (registryLoad ["root"] cexChildren)
      (.dirManifest "b" cexEchoBangFm []) = registryLoad ["root"] cexChildren := by
  constructor
  · exact (claim_C5_registry_collisions ["root"] cexChildren).2.1
      [Child.dirManifest "b" cexEchoBangFm []] (registryLoad ["root"] cexChildren)
      slugEcho cexSkill (by decide)
  · exact (claim_C5_registry_collisions ["root"] cexChildren).2.2.1
      (registryLoad ["root"] cexChildren) "b" cexEchoBangFm []
      (SkillMetadata.mk [69, 99, 104, 111, 33] [84, 101, 115, 116] none [] []) [66]
      (by decide) (by decide)

/-- C2 (archive-aware load modelled from the spec): a child is a
candidate bundle iff it is a directory with a top-level manifest, or a
file with a recognized archive extension whose effective root (after
junk filtering and optional single-top-level-directory stripping)
contains a manifest; non-candidates are skipped; and an archive file
that is a direct child of the root holding a valid manifest becomes a
registered skill. -/
theorem claim_C2_archive_candidates :
    (∀ (ch : ChildA) (st : RegStateA), candidateBundle ch = false →
      loadStepA st ch = st) ∧
    (∀ (name : String) (hasManifest : Bool) (fm : FMBlock),
      candidateBundle (.dir name hasManifest fm) = hasManifest) ∧
    (∀ (name ext : String) (es : List (List String)) (fm : FMBlock),
      candidateBundle (.file name ext (some es) fm) =
        (archiveExts.contains ext && (effectiveEntries es).contains skillMdPath)) ∧
    (∀ (name ext : String) (fm : FMBlock),
      candidateBundle (.file name ext none fm) = false) ∧
    (∀ (name ext : String) (es : List (List String)) (fm : FMBlock)
        (meta : SkillMetadata) (body : PyStr),
      archiveExts.contains ext = true →
      (effectiveEntries es).contains skillMdPath = true →
      parse_skill_md fm = .ok (meta, body) →
      lookupSlugA (registryLoadA [.file name ext (some es) fm]) (slugify meta.name) =
        some ⟨slugify meta.name, meta, true⟩) := by
  refine ⟨?_, ?_, ?_, ?_, ?_⟩
  · intro ch st hc
    unfold loadStepA
    rw [if_pos (by simp [hc])]
  · intro name hasManifest fm
    rfl
  · intro name ext es fm
    rfl
  · intro name ext fm
    simp [candidateBundle]
  · intro name ext es fm meta body h1 h2 hp
    have hc : candidateBundle (.file name ext (some es) fm) = true := by
      simp only [candidateBundle]
      rw [h1, h2]
      rfl
    show lookupSlugA (loadStepA ⟨[], []⟩ (.file name ext (some es) fm))
      (slugify meta.name) = some ⟨slugify meta.name, meta, true⟩
    simp only [loadStepA, hc, Bool.not_true, ChildA.fmA, hp]
    rw [if_neg (by simp)]
    have hempty1 : (lookupSlugA ⟨[], []⟩ (slugify meta.name)).isSome = false := rfl
    have hempty2 : (lookupNameA ⟨[], []⟩ meta.name).isSome = false := rfl
    rw [if_neg (by rw [hempty1]; exact Bool.noConfusion),
      if_neg (by rw [hempty2]; exact Bool.noConfusion)]
    simp [lookupSlugA, List.find?, ChildA.isArchiveFile]

theorem claim_C2_archive_candidates_witness :
    loadStepA ⟨[], []⟩ (.file "notes.txt" ".txt" none .absent) = ⟨[], []⟩ ∧
    lookupSlugA (registryLoadA [.file "pack.zip" ".zip"
        (some [["SKILL.md"], ["text", "hello.txt"]]) cexEchoFm])
      (slugify cexMeta.name) = some ⟨slugify cexMeta.name, cexMeta, true⟩ :=
  ⟨claim_C2_archive_candidates.1 (.file "notes.txt" ".txt" none .absent) ⟨[], []⟩
      (by decide),
    claim_C2_archive_candidates.2.2.2.2 "pack.zip" ".zip"
      [["SKILL.md"], ["text", "hello.txt"]] cexEchoFm cexMeta [66, 111, 100, 121]
      (by decide) (by decide) (by decide)⟩

/-- C6: every `run_script` invocation runs the target inside a full
temporary copy of the bundle (the copied subtree mirrors the source
subtree), and — provided the temporary root is fresh and the spawned
process writes only inside the workspace — the registered skill's
directory and every other path are unchanged on every exit path;
request files resolve to paths inside the copy. -/
theorem claim_C6_run_script_frame (fs : Fs) (skillDir tmpRoot : AbsPath)
    (relPath : RelPath) (payload : Payload) (timeout : Nat)
    (command : Option (List String)) (exec : ExecOutcome) (childEffect : Fs → Fs)
    (hfresh : ∀ p, descOf tmpRoot p = true → fs p = none)
    (hchild : ∀ (g : Fs) (p : AbsPath), descOf tmpRoot p = false →
      childEffect g p = g p) :
    (∀ p, (run_script fs skillDir tmpRoot relPath payload timeout command exec
      childEffect).fs p = fs p) ∧
    (∀ q, copyTree fs skillDir (tmpRoot ++ [relName skillDir])
      ((tmpRoot ++ [relName skillDir]) ++ q) = fs (skillDir ++ q)) ∧
    (∀ (r : RelPath) (q : AbsPath),
      resolve_within (tmpRoot ++ [relName skillDir]) r = .ok q →
      descOf (tmpRoot ++ [relName skillDir]) q = true) := by
  refine ⟨run_script_fs_eq fs skillDir tmpRoot relPath payload timeout command exec
    childEffect hfresh hchild, ?_, ?_⟩
  · intro q
    show (if descOf (tmpRoot ++ [relName skillDir]) ((tmpRoot ++ [relName skillDir]) ++ q)
      then fs (skillDir ++ ((tmpRoot ++ [relName skillDir]) ++ q).drop
        (tmpRoot ++ [relName skillDir]).length)
      else fs ((tmpRoot ++ [relName skillDir]) ++ q)) = fs (skillDir ++ q)
    rw [if_pos (descOf_append _ _), List.drop_left]
  · intro r q hq
    exact resolve_within_ok_desc _ r q hq

theorem witnessFs_fresh : ∀ p, descOf ["tmp", "ws1"] p = true → witnessFs p = none := by
  intro p hp
  obtain ⟨q, rfl⟩ := (descOf_iff_append _ _).mp hp
  simp [witnessFs]

theorem claim_C6_run_script_frame_witness :
    (run_script witnessFs ["skills", "echo"] ["tmp", "ws1"] wRel wPayload 60
      (some ["python3"]) (.completed [104, 105] [] 0 1) id).fs
      ["skills", "echo", "run.py"] = witnessFs ["skills", "echo", "run.py"] :=
  (claim_C6_run_script_frame witnessFs ["skills", "echo"] ["tmp", "ws1"] wRel
    wPayload 60 (some ["python3"]) (.completed [104, 105] [] 0 1) id witnessFs_fresh
    (fun _ _ _ => rfl)).1 ["skills", "echo", "run.py"]

/-- C7: if `run_script` spawned a child process and the awaited outcome
is a timeout, the call fails with the Execution error naming the timeout
bound and the process is killed and reaped; and the temporary workspace
is removed on every exit path (given a fresh temporary root and a
workspace-confined child). -/
theorem claim_C7_timeout_cleanup (fs : Fs) (skillDir tmpRoot : AbsPath)
    (relPath : RelPath) (payload : Payload) (timeout : Nat)
    (command : Option (List String)) (exec : ExecOutcome) (childEffect : Fs → Fs)
    (hfresh : ∀ p, descOf tmpRoot p = true → fs p = none)
    (hchild : ∀ (g : Fs) (p : AbsPath), descOf tmpRoot p = false →
      childEffect g p = g p) :
    (exec = .timedOut →
      (run_script fs skillDir tmpRoot relPath payload timeout command exec
        childEffect).spawned = true →
      (run_script fs skillDir tmpRoot relPath payload timeout command exec
        childEffect).result = .error (.executionTimeout timeout relPath) ∧
      (run_script fs skillDir tmpRoot relPath payload timeout command exec
        childEffect).killed = true) ∧
    (∀ p, descOf tmpRoot p = true →
      (run_script fs skillDir tmpRoot relPath payload timeout command exec
        childEffect).fs p = none) := by
  constructor
  · intro hexec
    subst hexec
    unfold run_script
    repeat' split
    all_goals intro hs
    all_goals first
      | exact ⟨rfl, rfl⟩
      | contradiction
  · intro p hp
    rw [run_script_fs_eq fs skillDir tmpRoot relPath payload timeout command exec
      childEffect hfresh hchild p]
    exact hfresh p hp

theorem claim_C7_timeout_cleanup_witness :
    (run_script witnessFs ["skills", "echo"] ["tmp", "ws1"] wRel wPayload 60
      (some ["python3"]) .timedOut id).result =
      .error (.executionTimeout 60 wRel) ∧
    (run_script witnessFs ["skills", "echo"] ["tmp", "ws1"] wRel wPayload 60
      (some ["python3"]) .timedOut id).killed = true ∧
    (run_script witnessFs ["skills", "echo"] ["tmp", "ws1"] wRel wPayload 60
      (some ["python3"]) .timedOut id).fs ["tmp", "ws1", "x"] = none := by
  have h := claim_C7_timeout_cleanup witnessFs ["skills", "echo"] ["tmp", "ws1"]
    wRel wPayload 60 (some ["python3"]) .timedOut id witnessFs_fresh
    (fun _ _ _ => rfl)
  have h1 := h.1 rfl (by decide)
  exact ⟨h1.1, h1.2, h.2 ["tmp", "ws1", "x"] (by decide)⟩

/-- Reaching the spawn point requires every file entry to have decoded
and the stdin payload to have normalized. -/
theorem run_script_spawned_prereqs (fs : Fs) (skillDir tmpRoot : AbsPath)
    (relPath : RelPath) (payload : Payload) (timeout : Nat)
    (command : Option (List String)) (exec : ExecOutcome) (childEffect : Fs → Fs) :
    (run_script fs skillDir tmpRoot relPath payload timeout command exec
      childEffect).spawned = true →
    (writeFiles (tmpRoot ++ [relName skillDir])
      (copyTree fs skillDir (tmpRoot ++ [relName skillDir])) payload.files).2 =
        none ∧
    (∃ v, stdinBytes payload.stdin = .ok v) := by
  unfold run_script
  repeat' split
  all_goals intro hs
  all_goals first
    | exact ⟨by assumption, _, by assumption⟩
    | cases hs

/-- When no child process was spawned the call returned an error. -/
theorem run_script_error_of_not_spawned (fs : Fs) (skillDir tmpRoot : AbsPath)
    (relPath : RelPath) (payload : Payload) (timeout : Nat)
    (command : Option (List String)) (exec : ExecOutcome) (childEffect : Fs → Fs) :
    (run_script fs skillDir tmpRoot relPath payload timeout command exec
      childEffect).spawned = false →
    ∃ er, (run_script fs skillDir tmpRoot relPath payload timeout command exec
      childEffect).result = .error er := by
  unfold run_script
  repeat' split
  all_goals intro hs
  all_goals first
    | exact ⟨_, rfl⟩
    | cases hs

/-- C10: a `run_script` request whose files entry or stdin mapping
carries an encoding tag other than `"text"` or `"base64"` fails without
spawning a child process; when the offending entry (or the stdin
mapping) is reached, the error is the `SkillError` naming the
unsupported encoding; `"text"` means the content is UTF-8-encoded to
bytes and `"base64"` means the content is base64-decoded to bytes. -/
theorem claim_C10_unsupported_encoding (fs : Fs) (skillDir tmpRoot : AbsPath)
    (relPath : RelPath) (payload : Payload) (timeout : Nat)
    (command : Option (List String)) (exec : ExecOutcome) (childEffect : Fs → Fs) :
    (((∃ f ∈ payload.files, f.encoding ≠ "text" ∧ f.encoding ≠ "base64") ∨
      (∃ c e, payload.stdin = .mapping c e ∧ e ≠ "text" ∧ e ≠ "base64")) →
      (run_script fs skillDir tmpRoot relPath payload timeout command exec
        childEffect).spawned = false ∧
      ∃ er, (run_script fs skillDir tmpRoot relPath payload timeout command exec
        childEffect).result = .error er) ∧
    (∀ (sp rt q : AbsPath) (r : RelPath) (content : PyStr) (enc : String),
      resolve_within skillDir relPath = .ok sp →
      (fs sp).isNone = false →
      resolve_within (tmpRoot ++ [relName skillDir]) relPath = .ok rt →
      payload.files = [⟨some r, some content, enc⟩] →
      resolve_within (tmpRoot ++ [relName skillDir]) r = .ok q →
      enc ≠ "text" → enc ≠ "base64" →
      (run_script fs skillDir tmpRoot relPath payload timeout command exec
        childEffect).result = .error (.unsupportedEncoding enc) ∧
      (run_script fs skillDir tmpRoot relPath payload timeout command exec
        childEffect).spawned = false) ∧
    (∀ (sp rt : AbsPath) (xs : List String) (content : PyStr) (enc : String),
      resolve_within skillDir relPath = .ok sp →
      (fs sp).isNone = false →
      resolve_within (tmpRoot ++ [relName skillDir]) relPath = .ok rt →
      payload.files = [] → payload.args = .items xs →
      payload.stdin = .mapping content enc →
      enc ≠ "text" → enc ≠ "base64" →
      (run_script fs skillDir tmpRoot relPath payload timeout command exec
        childEffect).result = .error (.unsupportedEncoding enc) ∧
      (run_script fs skillDir tmpRoot relPath payload timeout command exec
        childEffect).spawned = false) ∧
    (∀ content : PyStr, decode_payload_content content "text" =
      .ok (utf8Encode content)) ∧
    (∀ (content : PyStr) (enc : String), enc ≠ "text" → enc ≠ "base64" →
      decode_payload_content content enc = .error (.unsupportedEncoding enc) ∧
      (Err.unsupportedEncoding enc).isSkillError = true) ∧
    (∀ content : PyStr, decode_payload_content content "base64" =
      match b64decode content with
      | some bs => .ok bs
      | none => .error .binasciiPadding) := by
  refine ⟨?_, ?_, ?_, ?_, ?_, ?_⟩
  · intro h
    by_cases hsp : (run_script fs skillDir tmpRoot relPath payload timeout command
        exec childEffect).spawned = true
    · exfalso
      obtain ⟨hwf, v, hstdin⟩ := run_script_spawned_prereqs fs skillDir tmpRoot
        relPath payload timeout command exec childEffect hsp
      rcases h with ⟨f, hf, he1, he2⟩ | ⟨c, e, hst, he1, he2⟩
      · rcases writeFiles_ok_encodings _ payload.files _ hwf f hf with h' | h'
        · exact he1 h'
        · exact he2 h'
      · rw [hst] at hstdin
        rcases stdin_ok_encoding c e v hstdin with h' | h'
        · exact he1 h'
        · exact he2 h'
    · have hsp' : (run_script fs skillDir tmpRoot relPath payload timeout command
          exec childEffect).spawned = false := by simpa using hsp
      exact ⟨hsp', run_script_error_of_not_spawned fs skillDir tmpRoot relPath
        payload timeout command exec childEffect hsp'⟩
  · intro sp rt q r content enc hsp hex hrt hfiles hq he1 he2
    constructor
    · simp [run_script, hsp, hex, hrt, hfiles, writeFiles, hq,
        decode_payload_content, he1, he2]
    · simp [run_script, hsp, hex, hrt, hfiles, writeFiles, hq,
        decode_payload_content, he1, he2]
  · intro sp rt xs content enc hsp hex hrt hfiles hargs hstdin he1 he2
    constructor
    · simp [run_script, hsp, hex, hrt, hfiles, hargs, hstdin, writeFiles,
        argsCheck, stdinBytes, decode_payload_content, he1, he2]
    · simp [run_script, hsp, hex, hrt, hfiles, hargs, hstdin, writeFiles,
        argsCheck, stdinBytes, decode_payload_content, he1, he2]
  · intro content
    simp [decode_payload_content]
  · intro content enc he1 he2
    exact ⟨by simp [decode_payload_content, he1, he2], rfl⟩
  · intro content
    simp [decode_payload_content]

theorem claim_C10_unsupported_encoding_witness :
    ((run_script witnessFs ["skills", "echo"] ["tmp", "ws1"] wRel wPayloadBadStdin
      60 (some ["python3"]) .timedOut id).spawned = false ∧
      ∃ er, (run_script witnessFs ["skills", "echo"] ["tmp", "ws1"] wRel
        wPayloadBadStdin 60 (some ["python3"]) .timedOut id).result = .error er) ∧
    ((run_script witnessFs ["skills", "echo"] ["tmp", "ws1"] wRel wPayloadBadFile
      60 (some ["python3"]) .timedOut id).result =
        .error (.unsupportedEncoding "hex") ∧
      (run_script witnessFs ["skills", "echo"] ["tmp", "ws1"] wRel wPayloadBadFile
        60 (some ["python3"]) .timedOut id).spawned = false) ∧
    decode_payload_content [104] "text" = .ok (utf8Encode [104]) :=
  ⟨(claim_C10_unsupported_encoding witnessFs ["skills", "echo"] ["tmp", "ws1"] wRel
      wPayloadBadStdin 60 (some ["python3"]) .timedOut id).1
      (Or.inr ⟨[104], "hex", rfl, by decide, by decide⟩),
    (claim_C10_unsupported_encoding witnessFs ["skills", "echo"] ["tmp", "ws1"] wRel
      wPayloadBadFile 60 (some ["python3"]) .timedOut id).2.1
      ["skills", "echo", "run.py"] ["tmp", "ws1", "echo", "run.py"]
      ["tmp", "ws1", "echo", "data.bin"] ⟨false, [.name "data.bin"]⟩ [104] "hex"
      (by decide) (by decide) (by decide) rfl (by decide) (by decide) (by decide),
    (claim_C10_unsupported_encoding witnessFs ["skills", "echo"] ["tmp", "ws1"] wRel
      wPayloadBadFile 60 (some ["python3"]) .timedOut id).2.2.2.1 [104]⟩
